import Mathlib

/-!
Verification development for the oemof_pipe package-building and override
engine (`src/builder.py`, `src/scenario.py`, `src/oemof_pipe/main.py`).

Python dictionaries are modelled as insertion-ordered association lists
(`List (String × α)`): assignment `d[k] = v` replaces the value in place when
the key exists and appends otherwise, exactly like a Python dict.  Datetime
values are abstracted as hour counts (`Nat`); CSV cell values as `String`.
-/

namespace OemofPipe

/-- Insertion-ordered map assignment, mirroring Python `d[k] = v`:
replace in place when the key is present, append otherwise. -/
def setAssoc {α : Type} : List (String × α) → String → α → List (String × α)
  | [], k, v => [(k, v)]
  | (k', v') :: rest, k, v =>
    if k' = k then (k, v) :: rest else (k', v') :: setAssoc rest k v

/-- Lookup mirroring Python `d.get(k)` (first matching key). -/
def getAssoc {α : Type} : List (String × α) → String → Option α
  | [], _ => none
  | (k', v') :: rest, k => if k' = k then some v' else getAssoc rest k

/-- Key list of an ordered map (Python `list(d)`). -/
def keysOf {α : Type} (l : List (String × α)) : List String := l.map Prod.fst

/-- A data row: one instance of an element resource (a Python dict of
string-valued attributes). -/
abbrev Row := List (String × String)

def rowGet (r : Row) (k : String) : Option String := getAssoc r k

def rowHas (r : Row) (k : String) : Bool := (rowGet r k).isSome

def rowSet (r : Row) (k v : String) : Row := setAssoc r k v

/-- Attribute metadata as stored in a component YAML definition; every key is
optional in the YAML dict (`attr_info.get(..., default)`). -/
structure AttrInfo where
  attrType : Option String := none
  description : Option String := none
  unit : Option String := none
deriving Repr, DecidableEq

/-- Model of `builder.Component`: an immutable component-type definition. -/
structure Component where
  name : String
  attributes : List (String × AttrInfo)
  busses : List String
  sequences : List String
deriving Repr, DecidableEq

/-- One entry of a resource field map (`self.fields[field_name] = {...}`). -/
structure FieldInfo where
  name : String
  fieldType : String
  description : String
  unit : String
deriving Repr, DecidableEq

/-- Model of `builder.REQUIRED_FIELDS = ("type", "name")`. -/
def REQUIRED_FIELDS : List String := ["type", "name"]

/-- State of `builder.ElementResourceBuilder`. -/
structure ElementResource where
  component : Component
  name : String
  /-- Model of `self.sequences = set(component.sequences + sequences)`; the set is
  modelled as a duplicate-free list. -/
  sequences : List String
  fields : List (String × FieldInfo)
  instances : List Row
deriving Repr, DecidableEq

/-- Model of `ElementResourceBuilder.add_field`. -/
def ElementResource.addField (er : ElementResource) (fieldName : String) :
    Except String ElementResource :=
  match getAssoc er.component.attributes fieldName with
  | none =>
      .error ("Attribute " ++ fieldName ++ " not found in component "
        ++ er.component.name ++ ".")
  | some attrInfo =>
      let fieldType :=
        if fieldName ∈ er.sequences then "string"
        else attrInfo.attrType.getD "string"
      .ok { er with
        fields := setAssoc er.fields fieldName
          ⟨fieldName, fieldType, attrInfo.description.getD "",
            attrInfo.unit.getD ""⟩ }

/-- Model of `ElementResourceBuilder.__init__`.  Besides the finished builder it
returns the final `selected_attributes` list: Python appends the required
fields `"type"`/`"name"` to the caller-supplied list object *in place*, so the
caller's alias observes the extended list.  When `selectedAttributes` is
`none` Python rebinds it to the component's attribute *dict*, on which
`.append` raises `AttributeError` unless both required fields are already
attribute keys. -/
def createElementResource (comp : Component) (resourceName : String)
    (selectedAttributes : Option (List String)) (sequences : List String) :
    Except String (ElementResource × List String) := do
  let seqSet := (comp.sequences ++ sequences).dedup
  let base : ElementResource :=
    { component := comp, name := resourceName, sequences := seqSet,
      fields := [], instances := [] }
  match selectedAttributes with
  | none =>
      if REQUIRED_FIELDS.all (fun a => a ∈ keysOf comp.attributes) then do
        let er ← (keysOf comp.attributes).foldlM ElementResource.addField base
        return (er, keysOf comp.attributes)
      else
        .error "AttributeError: 'dict' object has no attribute 'append'"
  | some sel =>
      let sel' := REQUIRED_FIELDS.foldl
        (fun acc a => if a ∈ acc then acc else acc ++ [a]) sel
      let er ← sel'.foldlM ElementResource.addField base
      return (er, sel')

/-- Model of `ElementResourceBuilder.add_instance`. -/
def ElementResource.addInstance (er : ElementResource) (data : Row) :
    Except String ElementResource :=
  if ¬ rowHas data "name" then
    .error "Missing 'name' in data."
  else
    -- Set data type automatically if not set
    let data' := if rowHas data "type" then data
      else rowSet data "type" er.component.name
    -- Check type column consistency
    if rowGet data' "type" ≠ some er.component.name then
      .error "Type cannot be different from component type."
    else
      -- Check if all data fields match
      match (keysOf data').find? (fun k => ¬ k ∈ keysOf er.fields) with
      | some k => .error ("Attribute " ++ k ++ " not found in resource.")
      | none => .ok { er with instances := er.instances ++ [data'] }

/-- One foreign-key descriptor entry from
`ElementResourceBuilder.foreign_keys`; sequence references carry no
`"fields"` key in the reference dict (`refFields = none`). -/
structure ForeignKey where
  fields : String
  refResource : String
  refFields : Option String
deriving Repr, DecidableEq

/-- Model of `ElementResourceBuilder.foreign_keys`. -/
def ElementResource.foreignKeys (er : ElementResource) : List ForeignKey :=
  er.component.busses.map (fun bus => ⟨bus, "bus", some "name"⟩)
    ++ er.sequences.map (fun seq => ⟨seq, er.name ++ "_profile", none⟩)

/-- Model of `builder.hourly_range`, with datetimes abstracted as hour counts from
the given start. -/
def hourlyRange (start periods : Nat) : List Nat :=
  (List.range periods).map (start + ·)

/-- The default time index of `SequenceResourceBuilder`: a canonical hourly
sequence of 8760 points from a fixed epoch. -/
def defaultTimeindex : List Nat := hourlyRange 0 8760

def timeindexFieldInfo : FieldInfo :=
  ⟨"timeindex", "datetime", "Current timestep", "n/a"⟩

/-- State of `builder.SequenceResourceBuilder`. -/
structure SequenceResource where
  name : String
  fields : List (String × FieldInfo)
  timeindex : List Nat
  instances : List (String × List Int)
deriving Repr, DecidableEq

/-- Model of `SequenceResourceBuilder.__init__`; `self.timeindex = timeindex or
default` means a missing *or empty* argument falls back to the default. -/
def createSequenceResource (name : String) (timeindex : Option (List Nat)) :
    SequenceResource :=
  { name := name
    fields := [("timeindex", timeindexFieldInfo)]
    timeindex := match timeindex with
      | none => defaultTimeindex
      | some [] => defaultTimeindex
      | some t => t
    instances := [] }

/-- Model of `SequenceResourceBuilder.add_instance` (the spec's `add_column`).  The
pair result mirrors the mutable object: on a length mismatch the exception is
raised before any update, so the state component is the untouched input. -/
def SequenceResource.addInstance (sr : SequenceResource) (name : String)
    (timeseries : List Int) : SequenceResource × Option String :=
  if timeseries.length ≠ sr.timeindex.length then
    (sr, some ("Timeseries length for column '" ++ name
      ++ "' does not match."))
  else
    ({ sr with
        fields := setAssoc sr.fields name
          ⟨name, "float", "Value for current timestep", "n/a"⟩
        instances := setAssoc sr.instances name timeseries }, none)

/-- A package resource: either an element table or a sequence table. -/
inductive Resource
  | element (er : ElementResource)
  | sequence (sr : SequenceResource)
deriving Repr, DecidableEq

def Resource.resName : Resource → String
  | .element er => er.name
  | .sequence sr => sr.name

/-- State of `builder.PackageBuilder`: the ordered resource-name → resource
map. -/
structure PackageState where
  resources : List (String × Resource)
deriving Repr, DecidableEq

/-- Model of `PackageBuilder.add_resource`. -/
def addResource (p : PackageState) (r : Resource) : PackageState :=
  ⟨setAssoc p.resources r.resName r⟩

def resourceNames (p : PackageState) : List String := keysOf p.resources

/-- One step of `PackageBuilder.infer_sequences_from_resources`, for one
resource of the snapshot taken by `list(self.resources.values())`.
Membership is tested against the *live* map (the accumulator). -/
def inferSequencesStep (acc : PackageState) (pr : String × Resource) :
    PackageState :=
  match pr.2 with
  | .sequence _ => acc
  | .element er =>
    if er.sequences ≠ [] ∧ er.sequences.any (fun s => s ∈ keysOf er.fields)
    then
      if er.name ++ "_profile" ∈ resourceNames acc then acc
      else addResource acc
        (.sequence (createSequenceResource (er.name ++ "_profile") none))
    else acc

/-- Model of `PackageBuilder.infer_sequences_from_resources`. -/
def inferSequences (p : PackageState) : PackageState :=
  p.resources.foldl inferSequencesStep p

/-- Model of `builder.DEFAULT_BUS_INSTANCE` with `"name"` assigned, as in
`infer_busses_from_resources`. -/
def defaultBusInstance (busName : String) : Row :=
  [("balanced", "True"), ("name", busName)]

/-- The `"name"` values of the bus resource's instances
(`{inst["name"] for inst in bus.instances}`); a `KeyError` on a nameless
instance and the `TypeError` hit when the `"bus"` entry is a sequence
resource with columns surface as errors. -/
def busInstanceNames (p : PackageState) : Except String (List String) :=
  match getAssoc p.resources "bus" with
  | some (.element er) =>
      er.instances.mapM (fun inst =>
        match rowGet inst "name" with
        | some n => Except.ok n
        | none => Except.error "KeyError: 'name'")
  | some (.sequence sr) =>
      if sr.instances = [] then .ok []
      else .error "TypeError: string indices must be integers"
  | none => .error "KeyError: 'bus'"

/-- Append one synthesized bus instance to the `"bus"` resource
(`bus.add_instance(bus_instance)`): the Python code mutates the builder
object stored under the `"bus"` key in place, so the updated builder is
written back under that key. -/
def appendBusInstance (p : PackageState) (busName : String) :
    Except String PackageState :=
  match getAssoc p.resources "bus" with
  | some (.element bus) => do
      let bus' ← bus.addInstance (defaultBusInstance busName)
      return ⟨setAssoc p.resources "bus" (.element bus')⟩
  | _ => .error "TypeError: add_instance on non-element bus resource"

/-- Innermost step of `infer_busses_from_resources`: handle one instance for
one bus-link attribute, appending a default bus instance for an observed,
truthy, not-yet-known bus name. -/
def busInstanceStep (busFk : String) (st : PackageState × List String)
    (inst : Row) : Except String (PackageState × List String) :=
  match rowGet inst busFk with
  | some v =>
      if v ≠ "" ∧ ¬ v ∈ st.2 then do
        let p' ← appendBusInstance st.1 v
        return (p', st.2 ++ [v])
      else pure st
  | none => pure st

/-- Scan of one resource inside `infer_busses_from_resources`: for every
bus-link attribute of its component and every instance, run
`busInstanceStep`. -/
def inferBussesScanResource (st : PackageState × List String) (nm : String) :
    Except String (PackageState × List String) :=
  match getAssoc st.1.resources nm with
  | some (.element er) =>
      er.component.busses.foldlM (fun st' busFk =>
        er.instances.foldlM (busInstanceStep busFk) st') st
  | _ => pure st

/-- First stage of `infer_busses_from_resources`: synthesize a default
`"bus"` element resource when none exists. -/
def ensureBusResource (busComp : Component) (p : PackageState) :
    Except String PackageState :=
  if "bus" ∈ resourceNames p then .ok p
  else
    match createElementResource busComp "bus" none [] with
    | .ok (bus, _) => .ok (addResource p (.element bus))
    | .error e => .error e

/-- Model of `PackageBuilder.infer_busses_from_resources`.  The component definition
used to synthesize a missing `"bus"` resource is loaded from the external
`bus.yaml`, passed here as `busComp`. -/
def inferBusses (busComp : Component) (p : PackageState) :
    Except String PackageState :=
  match ensureBusResource busComp p with
  | .error e => .error e
  | .ok p1 =>
    match busInstanceNames p1 with
    | .error e => .error e
    | .ok existing =>
      match (resourceNames p1).foldlM inferBussesScanResource
          (p1, existing) with
      | .error e => .error e
      | .ok st => .ok st.1

/-! ### Scenario instantiation (`scenario.py` / `blueprint.py`) -/

/-- Configuration of one element resource in a scenario/blueprint document.
`component` carries the component definition that
`Component.from_name(config.get("component"))` loads; `regions = none` means
the `regions` key is absent (so the global list applies). -/
structure ElementConfig where
  component : Component
  attributes : List String
  sequences : List String
  instances : List Row
  regions : Option (List String)
deriving Repr, DecidableEq

/-- Model of `check_instance_attributes` inside `_add_instances`: the first raw-row
key that is not a selected attribute yields a `KeyError`. -/
def checkInstanceAttributes (attributes : List String) (resourceName : String)
    (inst : Row) : Option String :=
  ((keysOf inst).find? (fun a => ¬ a ∈ attributes)).map
    (fun a => "Attribute '" ++ a ++ "' not available for '"
      ++ resourceName ++ "'.")

/-- Model of `add_default_sequence_foreign_keys`: for every sequence-link field that
is selected but absent from the row, synthesize `"<name>-profile"`; reading
`instance_data['name']` on a nameless row raises a `KeyError`. -/
def addDefaultSequenceFKs : List String → List String → Row →
    Except String Row
  | [], _, inst => .ok inst
  | s :: rest, attributes, inst =>
    if rowHas inst s ∨ ¬ s ∈ attributes then
      addDefaultSequenceFKs rest attributes inst
    else
      match rowGet inst "name" with
      | some n =>
          addDefaultSequenceFKs rest attributes
            (rowSet inst s (n ++ "-profile"))
      | none => .error "KeyError: 'name'" 

/-- Model of `adapt_regions_in_busses`: region-prefix every bus-link attribute value
present in the row. -/
def adaptRegionsInBusses (busses : List String) (region : String)
    (inst : Row) : Row :=
  busses.foldl (fun r b =>
    match rowGet r b with
    | some v => rowSet r b (region ++ "-" ++ v)
    | none => r) inst

/-- The replica built for one `(instance, region)` pair in the region branch
of `_add_instances`: copy, set `"region"`, region-prefix `"name"`, add
default sequence foreign keys, region-prefix bus values. -/
def regionReplica (comp : Component) (seqFields attributes : List String)
    (region : String) (inst : Row) : Except String Row := do
  let c1 := rowSet inst "region" region
  match rowGet c1 "name" with
  | none => .error "KeyError: 'name'"
  | some n =>
      let c2 := rowSet c1 "name" (region ++ "-" ++ n)
      let c3 ← addDefaultSequenceFKs seqFields attributes c2
      return adaptRegionsInBusses comp.busses region c3

/-- Inner region loop of `_add_instances`: add one replica per region,
stopping at the first raised error (rows added so far are kept, as the
builder object is mutated in place). -/
def processRegions (er : ElementResource) (comp : Component)
    (seqFields attributes : List String) (inst : Row) :
    List String → ElementResource × Option String
  | [] => (er, none)
  | region :: rest =>
    match regionReplica comp seqFields attributes region inst with
    | .error e => (er, some e)
    | .ok replica =>
      match er.addInstance replica with
      | .error e => (er, some e)
      | .ok er' => processRegions er' comp seqFields attributes inst rest

/-- Region-independent branch of `_add_instances`. -/
def addInstancesNoRegion (er : ElementResource)
    (seqFields attributes : List String) :
    List Row → ElementResource × Option String
  | [] => (er, none)
  | inst :: rest =>
    match checkInstanceAttributes attributes er.name inst with
    | some e => (er, some e)
    | none =>
      match addDefaultSequenceFKs seqFields attributes inst with
      | .error e => (er, some e)
      | .ok withFks =>
        match er.addInstance withFks with
        | .error e => (er, some e)
        | .ok er' => addInstancesNoRegion er' seqFields attributes rest

/-- Region branch of `_add_instances`: validate the raw row's keys first,
then replicate once per region. -/
def addInstancesRegions (er : ElementResource) (comp : Component)
    (seqFields attributes : List String) (regionList : List String) :
    List Row → ElementResource × Option String
  | [] => (er, none)
  | inst :: rest =>
    match checkInstanceAttributes attributes er.name inst with
    | some e => (er, some e)
    | none =>
      match processRegions er comp seqFields attributes inst regionList with
      | (er', some e) => (er', some e)
      | (er', none) =>
        addInstancesRegions er' comp seqFields attributes regionList rest

/-- The row stored by `add_instance`: the input row, with `"type"` filled in
with the component name when absent. -/
def typeFilled (compName : String) (data : Row) : Row :=
  if rowHas data "type" then data else rowSet data "type" compName

/-- The builder after appending rows to its instance list (all other
builder state unchanged). -/
def appendInstances (er : ElementResource) (rows : List Row) :
    ElementResource :=
  { er with instances := er.instances ++ rows }

/-- Exception-free form of `add_default_sequence_foreign_keys`, agreeing
with `addDefaultSequenceFKs` whenever the row carries a `"name"`. -/
def addDefaultSequenceFKsP : List String → List String → Row → Row
  | [], _, inst => inst
  | s :: rest, attributes, inst =>
    if rowHas inst s ∨ ¬ s ∈ attributes then
      addDefaultSequenceFKsP rest attributes inst
    else
      addDefaultSequenceFKsP rest attributes
        (rowSet inst s (((rowGet inst "name").getD "") ++ "-profile"))

/-- Exception-free form of the `(instance, region)` replica of
`_add_instances`, agreeing with `regionReplica` whenever the row carries a
`"name"`. -/
def replicaRow (comp : Component) (seqFields attributes : List String)
    (region : String) (inst : Row) : Row :=
  let c1 := rowSet inst "region" region
  let c2 := rowSet c1 "name"
    (region ++ "-" ++ ((rowGet c1 "name").getD ""))
  adaptRegionsInBusses comp.busses region
    (addDefaultSequenceFKsP seqFields attributes c2)

/-- The sequence-link fields of `_add_instances`
(`set(sequences + component.sequences)`). -/
def configSeqFields (cfg : ElementConfig) : List String :=
  (cfg.sequences ++ cfg.component.sequences).dedup

/-- Model of `scenario._add_instances` / `blueprint._add_instances`: the resource-level
region list (`config.get("regions", regions)`) overrides the global one. -/
def addInstances (er : ElementResource) (cfg : ElementConfig)
    (attributes : List String) (regions : Option (List String)) :
    ElementResource × Option String :=
  let comp := cfg.component
  let seqFields := configSeqFields cfg
  match cfg.regions.orElse (fun _ => regions) with
  | none => addInstancesNoRegion er seqFields attributes cfg.instances
  | some regionList =>
      addInstancesRegions er comp seqFields attributes regionList
        cfg.instances

/-- Truthiness of the global `regions` value (`if regions and ...`). -/
def regionsTruthy : Option (List String) → Bool
  | some (_ :: _) => true
  | _ => false

/-- Processing of one element resource inside `_create_elements`: resolve the
attribute list (falling back to the component's attribute dict, whose keys
cannot be appended to), append `"region"` when a global region list is
active, build the resource (which extends the same attribute list in place
with `"type"`/`"name"`), then add all instances validating against that
extended list. -/
def createOneElement (globalRegions : Option (List String)) (resName : String)
    (cfg : ElementConfig) : Except String ElementResource := do
  let comp := cfg.component
  let attrs1 ←
    if cfg.attributes = [] then
      -- `attributes = component.attributes` rebinds to the dict;
      -- `.append` on it raises AttributeError.
      if regionsTruthy globalRegions
          ∧ ¬ "region" ∈ keysOf comp.attributes then
        Except.error "AttributeError: 'dict' object has no attribute 'append'"
      else
        pure (keysOf comp.attributes)
    else
      if regionsTruthy globalRegions ∧ ¬ "region" ∈ cfg.attributes then
        pure (cfg.attributes ++ ["region"])
      else pure cfg.attributes
  let (er, attrsFinal) ←
    if cfg.attributes = [] then
      -- the builder receives the attribute dict: required fields must
      -- already be attribute keys, and no list is extended.
      if REQUIRED_FIELDS.all (fun a => a ∈ keysOf comp.attributes) then
        createElementResource comp resName (some attrs1) cfg.sequences
      else
        Except.error "AttributeError: 'dict' object has no attribute 'append'"
    else
      createElementResource comp resName (some attrs1) cfg.sequences
  match addInstances er cfg attrsFinal globalRegions with
  | (er', none) => pure er'
  | (_, some e) => Except.error e

/-- Model of `scenario._create_elements` / `blueprint._create_elements`. -/
def createElements (globalRegions : Option (List String))
    (elements : List (String × ElementConfig)) (b : PackageState) :
    Except String PackageState :=
  elements.foldlM (fun acc pr => do
    let er ← createOneElement globalRegions pr.1 pr.2
    return addResource acc (.element er)) b

/-! ### Scenario sequence processing (`_create_sequences`,
`_add_default_profiles`) -/

def zeros (n : Nat) : List Int := List.replicate n 0

/-- Model of `SequenceResourceBuilder.add_instance` with the raised exception
propagated. -/
def SequenceResource.addInstanceE (sr : SequenceResource) (name : String)
    (timeseries : List Int) : Except String SequenceResource :=
  match sr.addInstance name timeseries with
  | (sr', none) => .ok sr'
  | (_, some e) => .error e

/-- Lexicographic (code-point) comparison of character lists, as Python
compares strings. -/
def charListLe : List Char → List Char → Bool
  | [], _ => true
  | _ :: _, [] => false
  | a :: as, b :: bs =>
      if a < b then true
      else if b < a then false
      else charListLe as bs

def strLe (a b : String) : Bool := charListLe a.data b.data

/-- Python `sorted` on a set of strings, lexicographic by code point. -/
def sortStrings (l : List String) : List String :=
  l.insertionSort (fun a b => strLe a b = true)

/-- The non-bus (sequence) foreign keys of an element resource, as iterated
by `_add_default_profiles`. -/
def sequenceFKs (er : ElementResource) : List ForeignKey :=
  er.foreignKeys.filter (fun fk => fk.refResource ≠ "bus")

/-- The distinct values referenced through an element resource's sequence
foreign keys (the `sequences` set of `_add_default_profiles`). -/
def referencedSequenceValues (er : ElementResource) : List String :=
  ((sequenceFKs er).flatMap (fun fk =>
    er.instances.filterMap (fun inst => rowGet inst fk.fields))).dedup

/-- Body of the per-value loop of `_add_default_profiles`: create the
companion sequence resource `cn` on demand, then add one zero-filled column
named `v` to it. -/
def defaultProfileColStep (timeindex : List Nat) (cn : String)
    (acc2 : PackageState) (v : String) : Except String PackageState := do
  let acc3 :=
    if cn ∈ resourceNames acc2 then acc2
    else addResource acc2
      (.sequence (createSequenceResource cn (some timeindex)))
  match getAssoc acc3.resources cn with
  | some (.sequence sr) => do
      let sr' ← sr.addInstanceE v (zeros timeindex.length)
      return addResource acc3 (.sequence sr')
  | some (.element _) =>
      .error "TypeError: add_instance() takes 2 positional arguments"
  | none => .error "KeyError: companion resource"

/-- Processing of one element resource inside `_add_default_profiles`:
collect every value referenced through the resource's non-bus foreign keys,
then (in sorted order) create the companion sequence resource on demand and
add one zero-filled column per distinct value.  `sequence_name` is whatever
the last non-bus foreign key referenced. -/
def addDefaultProfilesStep (timeindex : List Nat) (acc : PackageState)
    (pr : String × Resource) : Except String PackageState :=
  match pr.2 with
  | .sequence _ => pure acc
  | .element er =>
    let seqFks := sequenceFKs er
    let vals := referencedSequenceValues er
    match seqFks.getLast? with
    | none => pure acc
    | some fkLast =>
      if vals ≠ [] then
        (sortStrings vals).foldlM
          (defaultProfileColStep timeindex fkLast.refResource) acc
      else pure acc

/-- Model of `scenario._add_default_profiles`, folding over a snapshot of the
resource list. -/
def addDefaultProfiles (timeindex : List Nat) (p : PackageState) :
    Except String PackageState :=
  p.resources.foldlM (addDefaultProfilesStep timeindex) p

/-- Model of `scenario._create_sequences`.  `timeindexInfo = none` models a scenario
document without a (non-empty) `timeindex` entry: the code then evaluates
`list(None)`, which raises a `TypeError`. -/
def createSequences (timeindexInfo : Option (Nat × Nat))
    (seqConfigs : List (String × List String)) (p : PackageState) :
    Except String PackageState := do
  let timeindex ←
    match timeindexInfo with
    | some (s, n) => Except.ok (hourlyRange s n)
    | none => Except.error "TypeError: 'NoneType' object is not iterable"
  let p1 ← seqConfigs.foldlM (fun acc pr => do
    let sr := createSequenceResource pr.1 (some timeindex)
    let sr' ←
      if timeindex ≠ [] then
        pr.2.foldlM (fun s c => s.addInstanceE c (zeros timeindex.length)) sr
      else pure sr
    return addResource acc (.sequence sr')) p
  addDefaultProfiles timeindex p1

/-! ### Override engine (`apply_element_data`, `apply_sequence_data`,
`apply_sequence_data_rowwise`) -/

/-- A delimited resource file in memory: header columns and rows keyed by
header name. -/
structure Table where
  cols : List String
  rows : List Row
deriving Repr, DecidableEq

/-- One entry of `datapackage.json`'s resource list (name and relative
path). -/
structure StoredResource where
  name : String
  path : String
deriving Repr, DecidableEq

/-- A rendered package on disk: the descriptor plus the resource files. -/
structure DiskPackage where
  descriptor : List StoredResource
  files : List (String × Table)
deriving Repr, DecidableEq

/-- Containment of one character list in another, structurally recursive so
that closed instances reduce by evaluation. -/
def containsSub (pat : List Char) : List Char → Bool
  | [] => pat.isEmpty
  | c :: rest => pat.isPrefixOf (c :: rest) || containsSub pat rest

/-- Python `pat in s` substring test. -/
def strContains (s pat : String) : Bool := containsSub pat.data s.data

/-- The scenario filter
`WHERE <scenario_column> = '<scenario>' OR <scenario_column> = 'ALL'`. -/
def passesScenario (scenarioCol scenario : String) (r : Row) : Bool :=
  rowGet r scenarioCol == some scenario || rowGet r scenarioCol == some "ALL"

/-- The LONG-format pivot
`PIVOT (SELECT name, scenario, var_name, var_value ...) ON var_name USING
ANY_VALUE(var_value)`: group by `(name, scenario)`, one column per distinct
variable name, first value per (group, variable); a variable absent from a
group stays NULL (no cell). -/
def pivotSingle (scenarioCol varNameCol varValueCol : String)
    (rows : List Row) : Table :=
  let varNames := (rows.filterMap (fun r => rowGet r varNameCol)).dedup
  let groupKeys :=
    (rows.map (fun r => (rowGet r "name", rowGet r scenarioCol))).dedup
  { cols := ["name", scenarioCol] ++ varNames
    rows := groupKeys.map (fun key =>
      let group := rows.filter (fun r =>
        rowGet r "name" = key.1 ∧ rowGet r scenarioCol = key.2)
      [("name", key.1.getD ""), (scenarioCol, key.2.getD "")] ++
        varNames.filterMap (fun v =>
          (group.find? (fun r => rowGet r varNameCol = some v)).map
            (fun r => (v, (rowGet r varValueCol).getD "")))) }

/-- Model of `scenario._get_update_columns`: the data-table columns that also exist in
the resource table, minus the excluded identity/selector columns. -/
def updateColumns (dataCols resCols excluded : List String) : List String :=
  dataCols.filter (fun c => c ∈ resCols ∧ ¬ c ∈ excluded)

/-- The SQL `UPDATE resource_table SET <cols> FROM data_table WHERE
resource_table.<key> = data_table.<key>`: every target row with a matching
data row gets the update columns overwritten; NULL keys never match; no row
is inserted or removed. -/
def mergeTable (key : String) (updateCols : List String)
    (dataRows : List Row) (t : Table) : Table :=
  { t with rows := t.rows.map (fun r =>
      match rowGet r key with
      | none => r
      | some kv =>
        match dataRows.find? (fun d => rowGet d key = some kv) with
        | none => r
        | some d =>
            updateCols.foldl (fun r' c =>
              rowSet r' c ((rowGet d c).getD "")) r) }

/-- The effective override table of `apply_element_data`: the scenario-key
filter, followed by the LONG pivot when the variable-name/value columns are
present (otherwise the rows are used WIDE as-is). -/
def elementDataTable (data : Table) (scenario : String)
    (scenarioCol varNameCol varValueCol : String) : Table :=
  let rawRows := data.rows.filter (passesScenario scenarioCol scenario)
  if varNameCol ∈ data.cols ∧ varValueCol ∈ data.cols then
    pivotSingle scenarioCol varNameCol varValueCol rawRows
  else { cols := data.cols, rows := rawRows }

/-- One resource step of `apply_element_data`'s merge loop. -/
def applyElementDataStep (dataTable : Table) (scenarioCol : String)
    (st : DiskPackage × List String) (res : StoredResource) :
    Except String (DiskPackage × List String) :=
  if strContains res.path "sequences" then pure st
  else
    match getAssoc st.1.files res.path with
    | none => .error "IOError: resource file not found"
    | some t =>
      let ucols :=
        updateColumns dataTable.cols t.cols ["name", scenarioCol, "id"]
      if ucols ≠ [] then
        if "name" ∈ t.cols ∧ "name" ∈ dataTable.cols then
          let t' := mergeTable "name" ucols dataTable.rows t
          pure ({ st.1 with files := setAssoc st.1.files res.path t' },
            st.2 ++ [res.path])
        else .error "BinderException: name"
      else pure st

/-- Model of `scenario.apply_element_data`.  Besides the updated package the list of
rewritten file paths is returned (`COPY ... TO` runs only when update
columns exist). -/
def applyElementData (disk : DiskPackage) (data : Table) (scenario : String)
    (scenarioCol varNameCol varValueCol : String) :
    Except String (DiskPackage × List String) := do
  if ¬ scenarioCol ∈ data.cols then
    .error "BinderException: scenario column not found"
  else
    if (varNameCol ∈ data.cols ∧ varValueCol ∈ data.cols)
        ∧ ¬ "name" ∈ data.cols then
      .error "BinderException: name"
    else
      let dataTable :=
        elementDataTable data scenario scenarioCol varNameCol varValueCol
      disk.descriptor.foldlM (applyElementDataStep dataTable scenarioCol)
        (disk, [])

def findResource (disk : DiskPackage) (name : String) :
    Option StoredResource :=
  disk.descriptor.find? (fun r => r.name = name)

/-- Model of `scenario.apply_sequence_data`: match the named sequence resource on
`timeindex`; note that this entry point takes no scenario key and applies no
scenario filter. -/
def applySequenceData (disk : DiskPackage) (data : Table)
    (sequenceName : String) : Except String (DiskPackage × List String) :=
  match findResource disk sequenceName with
  | none =>
      .error ("Resource '" ++ sequenceName ++ "' not found in datapackage.")
  | some res =>
    match getAssoc disk.files res.path with
    | none => .error "IOError: resource file not found"
    | some t =>
      let ucols := updateColumns data.cols t.cols ["timeindex"]
      if ucols ≠ [] then
        if "timeindex" ∈ t.cols ∧ "timeindex" ∈ data.cols then
          let t' := mergeTable "timeindex" ucols data.rows t
          .ok ({ disk with files := setAssoc disk.files res.path t' },
            [res.path])
        else .error "BinderException: timeindex"
      else .ok (disk, [])

/-- One override row of a ROWWISE sequence override: its scenario selector,
its variable name, the parsed value list of its series cell
(`json.loads`, entries stringified), and all remaining columns (timestamps
included), which the code never reads. -/
structure RowwiseRow where
  selector : String
  varName : String
  series : List String
  rest : Row
deriving Repr, DecidableEq

/-- The positional column update of `apply_sequence_data_rowwise`: row `r`
receives `series[j]` for the first `j < len(series)` whose row carries the
same `timeindex` value as `r` (rows beyond the series length, and rows whose
`timeindex` matches none, are untouched). -/
def rowwiseUpdateColumn (varName : String) (series : List String)
    (t : Table) : Table :=
  let times := t.rows.map (fun rj => rowGet rj "timeindex")
  { t with rows := t.rows.map (fun r =>
      match rowGet r "timeindex" with
      | none => r
      | some tv =>
        match (List.range series.length).find? (fun j =>
            times.get? j = some (some tv)) with
        | some j => rowSet r varName (series.getD j "")
        | none => r) }

/-- Model of `scenario.apply_sequence_data_rowwise`: filter the override rows by
scenario key, then apply each row whose variable name is a column of the
target positionally; the file is rewritten unconditionally at the end. -/
def applySequenceDataRowwise (disk : DiskPackage) (data : List RowwiseRow)
    (sequenceName scenario : String) :
    Except String (DiskPackage × List String) :=
  match findResource disk sequenceName with
  | none =>
      .error ("Resource '" ++ sequenceName ++ "' not found in datapackage.")
  | some res =>
    match getAssoc disk.files res.path with
    | none => .error "IOError: resource file not found"
    | some t =>
      let filtered := data.filter (fun r =>
        r.selector == scenario || r.selector == "ALL")
      let resColumns := t.cols.filter (fun c => c ≠ "timeindex")
      let t' := filtered.foldl (fun tc r =>
        if r.varName ∈ resColumns then
          rowwiseUpdateColumn r.varName r.series tc
        else tc) t
      .ok ({ disk with files := setAssoc disk.files res.path t' },
        [res.path])

/-! ### CLI entry guard (`oemof_pipe/main.py`) -/

/-- Abstract filesystem state for the datapackage output directory: which
package directories are populated, and which files this run has written. -/
structure FsState where
  existingPackages : List String
  writtenFiles : List String
deriving Repr, DecidableEq

/-- Model of `main.check_overriding_of_datapackage`: refuse (FileExistsError) when the
target directory is populated and `-f` was not given; with `-f` the existing
directory is removed first. -/
def checkOverridingOfDatapackage (name : String) (over : Bool)
    (fs : FsState) : FsState × Option String :=
  if name ∈ fs.existingPackages then
    if over then
      ({ fs with existingPackages := fs.existingPackages.erase name }, none)
    else
      (fs, some ("Datapackage '" ++ name
        ++ "' already exists. Use -f (force) to override it."))
  else (fs, none)

def resourcePath : Resource → String
  | .element er => "data/elements/" ++ er.name ++ ".csv"
  | .sequence sr => "data/sequences/" ++ sr.name ++ ".csv"

/-- Model of `PackageBuilder.save_package`: write every resource file, then the
descriptor.  It performs no existence check of its own. -/
def savePackageFiles (pkgName : String) (p : PackageState) (fs : FsState) :
    FsState :=
  { existingPackages :=
      if pkgName ∈ fs.existingPackages then fs.existingPackages
      else fs.existingPackages ++ [pkgName]
    writtenFiles := fs.writtenFiles
      ++ p.resources.map (fun pr => pkgName ++ "/" ++ resourcePath pr.2)
      ++ [pkgName ++ "/datapackage.json"] }

/-- Model of `main.blueprint_command` / `main.scenario_command`: run the existence
guard, then build the package in memory (`build` abstracts the scenario or
blueprint construction) and render it. -/
def renderCommand (pkgName : String) (force : Bool)
    (build : Except String PackageState) (fs : FsState) :
    FsState × Option String :=
  match checkOverridingOfDatapackage pkgName force fs with
  | (fs', some e) => (fs', some e)
  | (fs', none) =>
    match build with
    | .error e => (fs', some e)
    | .ok p => (savePackageFiles pkgName p fs', none)

/-! ### Concrete data used by the witness theorems -/

def attr0 : AttrInfo := {}

def comp0 : Component :=
  { name := "load"
    attributes := [("region", attr0), ("amount", attr0), ("bus", attr0),
      ("profile", attr0), ("type", attr0), ("name", attr0)]
    busses := ["bus"]
    sequences := ["profile"] }

def busComp0 : Component :=
  { name := "bus"
    attributes := [("region", attr0), ("name", attr0), ("type", attr0),
      ("balanced", attr0)]
    busses := []
    sequences := [] }

def field0 (n : String) : FieldInfo := ⟨n, "string", "", ""⟩

def er0 : ElementResource :=
  { component := comp0
    name := "electricity_demand"
    sequences := ["profile"]
    fields := [("amount", field0 "amount"), ("bus", field0 "bus"),
      ("profile", field0 "profile"), ("region", field0 "region"),
      ("type", field0 "type"), ("name", field0 "name")]
    instances := [] }

def cfg0 : ElementConfig :=
  { component := comp0
    attributes := ["amount", "bus", "profile", "region", "type", "name"]
    sequences := []
    instances := [[("name", "d1"), ("bus", "electricity")]]
    regions := none }

def sr0 : SequenceResource := createSequenceResource "profile0" (some [0, 1])

/-- The builder produced from `comp0` with the explicit attribute subset
`["amount", "bus", "profile"]` (used by the C10 witness). -/
def er10 : ElementResource :=
  { component := comp0
    name := "ed"
    sequences := ["profile"]
    fields := [("amount", field0 "amount"), ("bus", field0 "bus"),
      ("profile", field0 "profile"), ("type", field0 "type"),
      ("name", field0 "name")]
    instances := [] }

def tableEd : Table :=
  { cols := ["name", "amount", "type"]
    rows := [[("name", "d1"), ("amount", "1"), ("type", "load")],
      [("name", "d2"), ("amount", "2"), ("type", "load")]] }

def tableEdp : Table :=
  { cols := ["timeindex", "x", "y"]
    rows := [[("timeindex", "t0"), ("x", "0"), ("y", "5")],
      [("timeindex", "t1"), ("x", "0"), ("y", "6")],
      [("timeindex", "t2"), ("x", "0"), ("y", "7")]] }

def disk0 : DiskPackage :=
  { descriptor := [⟨"ed", "data/elements/ed.csv"⟩,
      ⟨"edp", "data/sequences/edp.csv"⟩]
    files := [("data/elements/ed.csv", tableEd),
      ("data/sequences/edp.csv", tableEdp)] }

/-- Override table for the `apply_sequence_data` counterexample: its single
row carries the scenario selector `"other"`, which matches no requested key
and is not `"ALL"`. -/
def seqOverrideOther : Table :=
  { cols := ["timeindex", "scenario", "x"]
    rows := [[("timeindex", "t1"), ("scenario", "other"), ("x", "9")]] }

/-- Specification predicate relating the disk state (plus written-paths
list) before and after a keyed override run: the descriptor is untouched,
the written list only grows, and every pre-existing file keeps its column
list and its exact row count (no insert, no delete); rows whose key value
matches no override row are byte-identical; a file that was not written
keeps its exact previous content; and a file with no overlapping non-key
columns is never written. -/
def mergeRunInv (key : String) (dataTable : Table) (excluded : List String)
    (a b : DiskPackage × List String) : Prop :=
  b.1.descriptor = a.1.descriptor
  ∧ (∀ p, p ∈ a.2 → p ∈ b.2)
  ∧ ∀ path t0, getAssoc a.1.files path = some t0 →
      ∃ t', getAssoc b.1.files path = some t'
        ∧ t'.cols = t0.cols
        ∧ t'.rows.length = t0.rows.length
        ∧ (∀ i (hi : i < t0.rows.length) (hi' : i < t'.rows.length),
            (∀ d ∈ dataTable.rows, ∀ kv,
              rowGet (t0.rows.get ⟨i, hi⟩) key = some kv →
              ¬ rowGet d key = some kv) →
            t'.rows.get ⟨i, hi'⟩ = t0.rows.get ⟨i, hi⟩)
        ∧ (¬ path ∈ b.2 → path ∈ a.2 ∨ t' = t0)
        ∧ (updateColumns dataTable.cols t0.cols excluded = []
            → (path ∈ b.2 ↔ path ∈ a.2))

/-- Override table and run results used by the C4 witness. -/
def elemOverrideBase : Table :=
  { cols := ["scenario", "name", "amount"]
    rows := [[("scenario", "base"), ("name", "d1"), ("amount", "10")]] }

def c4elemOut : DiskPackage × List String :=
  (applyElementData disk0 elemOverrideBase "base" "scenario" "var_name"
    "var_value").toOption.getD (disk0, [])

def c4seqOut : DiskPackage × List String :=
  (applySequenceData disk0 seqOverrideOther "edp").toOption.getD (disk0, [])

/-- Concrete scenario configurations used by the C1 witness. -/
def attrsAll : List String :=
  ["amount", "bus", "profile", "region", "type", "name"]

def cfgReg : ElementConfig :=
  { component := comp0, attributes := attrsAll, sequences := []
    instances := [[("name", "d1"), ("bus", "electricity")]]
    regions := some ["BB", "B"] }

def erReg : ElementResource := (addInstances er0 cfgReg attrsAll none).1

def cfgPass : ElementConfig :=
  { component := comp0, attributes := attrsAll, sequences := []
    instances := [[("name", "d1"), ("type", "load"), ("profile", "p")]]
    regions := none }

def erPass : ElementResource := (addInstances er0 cfgPass attrsAll none).1

/-- Specification predicate for the scan state of
`infer_busses_from_resources` relative to the state `base` it started from:
only the `"bus"` entry is ever modified; the name set is unchanged; the
`"bus"` entry is an element resource whose component has no bus-link
attributes; and the tracked known-name list is exactly the `"name"` values
of the bus instances. -/
def busScanInv (base : PackageState) (st : PackageState × List String) :
    Prop :=
  (∀ n, n ≠ "bus" → getAssoc st.1.resources n = getAssoc base.resources n)
  ∧ resourceNames st.1 = resourceNames base
  ∧ (∃ busEr : ElementResource,
      getAssoc st.1.resources "bus" = some (.element busEr)
      ∧ busEr.component.busses = [])
  ∧ busInstanceNames st.1 = .ok st.2

/-- Concrete package used by the C8 witness: one element resource whose
instances reference the busses `electricity` and `heat`; no `"bus"`
resource yet, so `infer_busses_from_resources` must synthesize one. -/
def erBusDemo : ElementResource :=
  { component := comp0
    name := "electricity_demand"
    sequences := ["profile"]
    fields := [("amount", field0 "amount"), ("bus", field0 "bus"),
      ("profile", field0 "profile"), ("region", field0 "region"),
      ("type", field0 "type"), ("name", field0 "name")]
    instances := [[("name", "d1"), ("bus", "electricity")],
      [("name", "d2"), ("bus", "heat")]] }

def pDemoC8 : PackageState := ⟨[("electricity_demand", .element erBusDemo)]⟩

/-- The package produced by the first `infer_busses_from_resources` run on
`pDemoC8` (extracted from the computation so the witness can feed it back
into a second run). -/
def pDemoC8' : PackageState :=
  match inferBusses busComp0 pDemoC8 with
  | .ok q => q
  | .error _ => pDemoC8

/-- Every resource-map entry of the package is stored under its builder's
own name; this holds for every state reachable through `add_resource` and is
assumed of the input packages of `_add_default_profiles`. -/
def keyNamed (p : PackageState) : Prop :=
  ∀ pr ∈ p.resources, pr.2.resName = pr.1

/-- Concrete package used by the C3 witness: an element resource whose two
instances reference the profile columns `pB` and `pA`, with no companion
sequence resource yet. -/
def erC3 : ElementResource :=
  { component := comp0
    name := "heat_demand"
    sequences := ["profile"]
    fields := [("amount", field0 "amount"), ("bus", field0 "bus"),
      ("profile", field0 "profile"), ("region", field0 "region"),
      ("type", field0 "type"), ("name", field0 "name")]
    instances := [[("name", "d1"), ("profile", "pB")],
      [("name", "d2"), ("profile", "pA")]] }

def pC3 : PackageState := ⟨[("heat_demand", .element erC3)]⟩

/-- The package produced by `_add_default_profiles` on `pC3` with the 3-step
time index (extracted from the computation for the C3 witness). -/
def pC3' : PackageState :=
  match addDefaultProfiles [0, 1, 2] pC3 with
  | .ok q => q
  | .error _ => pC3

/-! ### Shared lemmas about the ordered-map model -/

theorem exceptPure_eq {e a : Type} (x : a) :
    (pure x : Except e a) = Except.ok x := rfl

theorem exceptBind_ok {e a b : Type} (x : a) (g : a → Except e b) :
    ((Except.ok x : Except e a) >>= g) = g x := rfl

theorem exceptBind_error {e a b : Type} (x : e) (g : a → Except e b) :
    ((Except.error x : Except e a) >>= g) = Except.error x := rfl


theorem getAssoc_setAssoc_self {α : Type} (l : List (String × α))
    (k : String) (v : α) : getAssoc (setAssoc l k v) k = some v := by
  induction l with
  | nil => simp [setAssoc, getAssoc]
  | cons hd tl ih =>
      obtain ⟨k', v'⟩ := hd
      by_cases h : k' = k
      · simp [setAssoc, getAssoc, h]
      · simp [setAssoc, getAssoc, h, ih]

theorem keysOf_nil {α : Type} : keysOf ([] : List (String × α)) = [] := rfl

theorem keysOf_cons {α : Type} (a : String) (b : α) (l : List (String × α)) :
    keysOf ((a, b) :: l) = a :: keysOf l := rfl

theorem getAssoc_setAssoc_ne {α : Type} (l : List (String × α))
    (k k' : String) (v : α) (h : k' ≠ k) :
    getAssoc (setAssoc l k v) k' = getAssoc l k' := by
  have h2 : ¬ (k = k') := fun hh => h hh.symm
  induction l with
  | nil => simp [setAssoc, getAssoc, h2]
  | cons hd tl ih =>
      obtain ⟨k₀, v₀⟩ := hd
      by_cases h0 : k₀ = k
      · subst h0
        simp [setAssoc, getAssoc, h2]
      · by_cases h1 : k₀ = k'
        · simp [setAssoc, getAssoc, h0, h1, h]
        · simp [setAssoc, getAssoc, h0, h1, ih]

theorem keysOf_setAssoc_of_mem {α : Type} (l : List (String × α))
    (k : String) (v : α) (h : k ∈ keysOf l) :
    keysOf (setAssoc l k v) = keysOf l := by
  induction l with
  | nil => simp [keysOf_nil] at h
  | cons hd tl ih =>
      obtain ⟨k₀, v₀⟩ := hd
      by_cases h0 : k₀ = k
      · simp [setAssoc, keysOf_cons, h0]
      · have h' : k ∈ keysOf tl := by
          rw [keysOf_cons] at h
          rcases List.mem_cons.mp h with h | h
          · exact absurd h.symm h0
          · exact h
        simp [setAssoc, keysOf_cons, h0, ih h']

theorem keysOf_setAssoc_of_not_mem {α : Type} (l : List (String × α))
    (k : String) (v : α) (h : ¬ k ∈ keysOf l) :
    keysOf (setAssoc l k v) = keysOf l ++ [k] := by
  induction l with
  | nil => simp [setAssoc, keysOf_nil, keysOf_cons]
  | cons hd tl ih =>
      obtain ⟨k₀, v₀⟩ := hd
      have h0 : k₀ ≠ k := by
        intro hh
        exact h (by simp [keysOf_cons, hh])
      have h' : ¬ k ∈ keysOf tl := by
        intro hh
        exact h (by simp [keysOf_cons, hh])
      simp [setAssoc, keysOf_cons, h0, ih h']

theorem rowGet_rowSet_self (r : Row) (k v : String) :
    rowGet (rowSet r k v) k = some v :=
  getAssoc_setAssoc_self r k v

theorem rowGet_rowSet_ne (r : Row) (k k' v : String) (h : k' ≠ k) :
    rowGet (rowSet r k v) k' = rowGet r k' :=
  getAssoc_setAssoc_ne r k k' v h

theorem rowHas_rowSet_of_rowHas (r : Row) (k k' v : String)
    (h : rowHas r k') : rowHas (rowSet r k v) k' := by
  by_cases hk : k' = k
  · subst hk
    simp [rowHas, rowGet_rowSet_self]
  · simpa [rowHas, rowGet_rowSet_ne r k k' v hk] using h

/-! ### Claim theorems -/

/-- C7: for every sequence resource builder and every column whose value list
length differs from the time index length, `add_instance` (the spec's
`add_column`) fails with the length-mismatch error and mutates nothing: the
field map, the column map and the time index are unchanged. -/
theorem claim_C7 (sr : SequenceResource) (name : String) (values : List Int)
    (h : values.length ≠ sr.timeindex.length) :
    sr.addInstance name values =
        (sr, some ("Timeseries length for column '" ++ name
          ++ "' does not match."))
      ∧ (sr.addInstance name values).1.fields = sr.fields
      ∧ (sr.addInstance name values).1.instances = sr.instances
      ∧ (sr.addInstance name values).1.timeindex = sr.timeindex := by
  simp [SequenceResource.addInstance, h]

/-- Witness for C7 at a concrete two-step resource and a one-element
column. -/
theorem claim_C7_witness :
    sr0.addInstance "x" [5] =
        (sr0, some "Timeseries length for column 'x' does not match.")
      ∧ (sr0.addInstance "x" [5]).1.fields = sr0.fields
      ∧ (sr0.addInstance "x" [5]).1.instances = sr0.instances
      ∧ (sr0.addInstance "x" [5]).1.timeindex = sr0.timeindex :=
  claim_C7 sr0 "x" [5] (by decide)

/-- C2: for every element resource builder and every row, `add_instance`
fails when `"name"` is missing; fills `"type"` with the component name when
absent; fails when a present `"type"` mismatches; fails when the row carries
an undeclared key; otherwise appends the row at the end of the instance
list.  The success case holds for every builder state, in particular when an
existing instance already carries the same `"name"` (duplicates accepted). -/
theorem claim_C2 (er : ElementResource) (data : Row) :
    (¬ rowHas data "name" →
      er.addInstance data = .error "Missing 'name' in data.")
    ∧ (rowHas data "name" → ¬ rowHas data "type" →
        rowGet (typeFilled er.component.name data) "type"
          = some er.component.name)
    ∧ (rowHas data "name" →
        rowGet (typeFilled er.component.name data) "type"
            ≠ some er.component.name →
        er.addInstance data
          = .error "Type cannot be different from component type.")
    ∧ (∀ k, rowHas data "name" →
        rowGet (typeFilled er.component.name data) "type"
            = some er.component.name →
        (keysOf (typeFilled er.component.name data)).find?
            (fun k' => ¬ k' ∈ keysOf er.fields) = some k →
        er.addInstance data
          = .error ("Attribute " ++ k ++ " not found in resource."))
    ∧ (rowHas data "name" →
        rowGet (typeFilled er.component.name data) "type"
            = some er.component.name →
        (∀ k ∈ keysOf (typeFilled er.component.name data),
            k ∈ keysOf er.fields) →
        er.addInstance data = .ok { er with
          instances := er.instances ++ [typeFilled er.component.name data] })
    ∧ (rowHas data "name" →
        rowGet (typeFilled er.component.name data) "type"
            = some er.component.name →
        (∀ k ∈ keysOf (typeFilled er.component.name data),
            k ∈ keysOf er.fields) →
        (∃ inst ∈ er.instances, rowGet inst "name" = rowGet data "name") →
        er.addInstance data = .ok { er with
          instances := er.instances ++ [typeFilled er.component.name data] })
    := by
  refine ⟨?_, ?_, ?_, ?_, ?_, ?_⟩
  · intro h
    simp [ElementResource.addInstance, h]
  · intro _ h2
    simp [typeFilled, h2, rowGet_rowSet_self]
  · intro h1 hne
    simp only [ElementResource.addInstance, typeFilled] at hne ⊢
    simp [h1, hne]
  · intro k h1 heq hfind
    simp only [ElementResource.addInstance, typeFilled] at heq hfind ⊢
    simp only [decide_not] at hfind
    simp [h1, heq, hfind]
  · intro h1 heq hall
    have hnone : (keysOf (typeFilled er.component.name data)).find?
        (fun k' => ¬ k' ∈ keysOf er.fields) = none := by
      rw [List.find?_eq_none]
      intro x hx
      simpa using hall x hx
    simp only [ElementResource.addInstance, typeFilled] at heq hnone ⊢
    simp only [decide_not] at hnone
    simp [h1, heq, hnone]
  · intro h1 heq hall _
    have hnone : (keysOf (typeFilled er.component.name data)).find?
        (fun k' => ¬ k' ∈ keysOf er.fields) = none := by
      rw [List.find?_eq_none]
      intro x hx
      simpa using hall x hx
    simp only [ElementResource.addInstance, typeFilled] at heq hnone ⊢
    simp only [decide_not] at hnone
    simp [h1, heq, hnone]

/-- Witness for C2: a concrete row without `"type"` is appended with the
component name filled in. -/
theorem claim_C2_witness :
    er0.addInstance [("name", "d1"), ("amount", "5")] = .ok { er0 with
      instances := [[("name", "d1"), ("amount", "5"), ("type", "load")]] } := by
  have h := (claim_C2 er0 [("name", "d1"), ("amount", "5")]).2.2.2.2.1
    (by decide) (by decide) (by decide)
  exact h.trans rfl

/-- C9: a CLI render run (`blueprint_command`/`scenario_command`) against an
already-populated target directory, without the force flag, fails with the
already-exists error before anything is built or written: the filesystem
state is returned unchanged. -/
theorem claim_C9 (fs : FsState) (pkgName : String) (force : Bool)
    (build : Except String PackageState)
    (hpop : pkgName ∈ fs.existingPackages) (hforce : force = false) :
    renderCommand pkgName force build fs =
      (fs, some ("Datapackage '" ++ pkgName
        ++ "' already exists. Use -f (force) to override it.")) := by
  subst hforce
  simp [renderCommand, checkOverridingOfDatapackage, hpop]

/-- Witness for C9 at a concrete populated directory. -/
theorem claim_C9_witness :
    renderCommand "test" false (.ok ⟨[]⟩) ⟨["test"], []⟩ =
      (⟨["test"], []⟩, some
        "Datapackage 'test' already exists. Use -f (force) to override it.")
    := by
  have h := claim_C9 ⟨["test"], []⟩ "test" false (.ok ⟨[]⟩)
    (by decide) rfl
  exact h.trans (by decide)

/-- C10 (implicit frame effect): constructing an element resource builder
with an explicit `selected_attributes` list extends that caller-owned list in
place with `"type"` and `"name"` (modelled by the returned list).  Since
scenario instantiation later validates raw-row keys against the same
(extended) list, rows carrying explicit `"type"`/`"name"` keys pass
validation even though the blueprint's attribute subset did not list them —
against the unextended subset they would fail. -/
theorem claim_C10 (comp : Component) (resourceName : String)
    (sel seqs : List String) (er : ElementResource) (sel' : List String)
    (htype : ¬ "type" ∈ sel) (hname : ¬ "name" ∈ sel)
    (hcr : createElementResource comp resourceName (some sel) seqs
      = .ok (er, sel')) :
    sel' = sel ++ ["type", "name"]
    ∧ (∀ rn inst, (∀ k ∈ keysOf inst, k ∈ sel ∨ k = "type" ∨ k = "name") →
        checkInstanceAttributes sel' rn inst = none)
    ∧ (∀ rn inst k, k ∈ keysOf inst → (k = "type" ∨ k = "name") →
        checkInstanceAttributes sel rn inst ≠ none) := by
  have hfold : REQUIRED_FIELDS.foldl
      (fun acc a => if a ∈ acc then acc else acc ++ [a]) sel
      = sel ++ ["type", "name"] := by
    simp [REQUIRED_FIELDS, htype, hname]
  have hsel : sel' = sel ++ ["type", "name"] := by
    cases hfl : (REQUIRED_FIELDS.foldl
        (fun acc a => if a ∈ acc then acc else acc ++ [a]) sel).foldlM
        ElementResource.addField
        { component := comp, name := resourceName,
          sequences := (comp.sequences ++ seqs).dedup,
          fields := [], instances := [] } with
    | error e =>
        rw [createElementResource] at hcr
        simp [hfl] at hcr
    | ok er₀ =>
        rw [createElementResource] at hcr
        simp [hfl] at hcr
        rw [← hfold]
        exact hcr.2.symm
  refine ⟨hsel, ?_, ?_⟩
  · intro rn inst hk
    simp only [checkInstanceAttributes, Option.map_eq_none', List.find?_eq_none]
    intro x hx
    rcases hk x hx with h | h | h <;> simp [hsel, h]
  · intro rn inst k hkmem hkreq hcontra
    have hknot : ¬ k ∈ sel := by
      rcases hkreq with rfl | rfl
      · exact htype
      · exact hname
    have hnone : (keysOf inst).find? (fun a => ¬ a ∈ sel) = none := by
      simpa [checkInstanceAttributes, Option.map_eq_none'] using hcontra
    rw [List.find?_eq_none] at hnone
    have := hnone k hkmem
    simp [hknot] at this

/-- Witness for C10: the extended list and a row using the unselected
`"type"`/`"name"` keys that passes validation against it. -/
theorem claim_C10_witness :
    createElementResource comp0 "ed" (some ["amount", "bus", "profile"]) []
      = .ok (er10, ["amount", "bus", "profile", "type", "name"])
    ∧ checkInstanceAttributes ["amount", "bus", "profile", "type", "name"]
        "ed" [("name", "d1"), ("type", "load")] = none
    ∧ checkInstanceAttributes ["amount", "bus", "profile"]
        "ed" [("name", "d1"), ("type", "load")] ≠ none := by
  have hcr : createElementResource comp0 "ed"
      (some ["amount", "bus", "profile"]) []
      = .ok (er10, ["amount", "bus", "profile", "type", "name"]) := by rfl
  have h := claim_C10 comp0 "ed" ["amount", "bus", "profile"] [] er10
    ["amount", "bus", "profile", "type", "name"]
    (by decide) (by decide) hcr
  exact ⟨hcr,
    h.2.1 "ed" [("name", "d1"), ("type", "load")] (by decide),
    h.2.2 "ed" [("name", "d1"), ("type", "load")] "type" (by decide)
      (Or.inl rfl)⟩

/-- The result of `apply_element_data` depends on the override rows only
through their scenario-filtered part. -/
theorem applyElementData_rows_congr (disk : DiskPackage) (c : List String)
    (rows1 rows2 : List Row) (scenario scol vn vv : String)
    (h : rows1.filter (passesScenario scol scenario)
      = rows2.filter (passesScenario scol scenario)) :
    applyElementData disk ⟨c, rows1⟩ scenario scol vn vv
      = applyElementData disk ⟨c, rows2⟩ scenario scol vn vv := by
  simp only [applyElementData, elementDataTable, h]

/-- The result of `apply_sequence_data_rowwise` depends on the override rows
only through their scenario-filtered part. -/
theorem applySequenceDataRowwise_congr (disk : DiskPackage)
    (data1 data2 : List RowwiseRow) (seqName scen : String)
    (h : data1.filter (fun r => r.selector == scen || r.selector == "ALL")
      = data2.filter (fun r => r.selector == scen || r.selector == "ALL")) :
    applySequenceDataRowwise disk data1 seqName scen
      = applySequenceDataRowwise disk data2 seqName scen := by
  simp only [applySequenceDataRowwise, h]

theorem filter_self_idem {α : Type} (p : α → Bool) (l : List α) :
    (l.filter p).filter p = l.filter p := by
  induction l with
  | nil => rfl
  | cons a tl ih =>
      by_cases h : p a
      · simp [List.filter_cons, h, ih]
      · simp [List.filter_cons, h, ih]

/-- C5 counterexample: `apply_sequence_data` (the plain, timeindex-matched
sequence override shape) applies an override row whose scenario selector is
`"other"` — matching no requested scenario key and not `"ALL"` — to the
target: column `x` at `t1` changes from `"0"` to `"9"`.  The claim that
scenario-key filtering holds for *both* sequence override shapes is
therefore false. -/
theorem claim_C5_counterexample :
    (applySequenceData disk0 seqOverrideOther "edp").map (fun st =>
        (getAssoc st.1.files "data/sequences/edp.csv").map (fun t =>
          t.rows.map (fun r => rowGet r "x")))
      = .ok (some [some "0", some "9", some "0"])
    ∧ seqOverrideOther.rows.map (fun r => rowGet r "scenario") = [some "other"]
    ∧ tableEdp.rows.map (fun r => rowGet r "x")
      = [some "0", some "0", some "0"] :=
  ⟨rfl, rfl, rfl⟩

/-- C5 (amended): scenario-key filtering holds for element overrides and for
ROWWISE sequence overrides: only rows whose selector equals the requested
key or `"ALL"` are applied, and appending a row with a non-matching,
non-`"ALL"` selector never changes the outcome.  (The plain timeindex-matched
`apply_sequence_data` takes no scenario key and applies rows regardless of
any selector column — see the counterexample.) -/
theorem claim_C5 :
    (∀ (disk : DiskPackage) (c : List String) (rows : List Row) (r0 : Row)
        (scenario scol vn vv : String),
      passesScenario scol scenario r0 = false →
      applyElementData disk ⟨c, rows ++ [r0]⟩ scenario scol vn vv
        = applyElementData disk ⟨c, rows⟩ scenario scol vn vv)
    ∧ (∀ (disk : DiskPackage) (data : Table) (scenario scol vn vv : String),
      applyElementData disk
          ⟨data.cols, data.rows.filter (passesScenario scol scenario)⟩
          scenario scol vn vv
        = applyElementData disk data scenario scol vn vv)
    ∧ (∀ (disk : DiskPackage) (data : List RowwiseRow) (r0 : RowwiseRow)
        (seqName scen : String),
      (r0.selector == scen || r0.selector == "ALL") = false →
      applySequenceDataRowwise disk (data ++ [r0]) seqName scen
        = applySequenceDataRowwise disk data seqName scen)
    ∧ (∀ (disk : DiskPackage) (data : List RowwiseRow) (seqName scen : String),
      applySequenceDataRowwise disk
          (data.filter (fun r => r.selector == scen || r.selector == "ALL"))
          seqName scen
        = applySequenceDataRowwise disk data seqName scen) := by
  refine ⟨?_, ?_, ?_, ?_⟩
  · intro disk c rows r0 scenario scol vn vv h
    apply applyElementData_rows_congr
    simp [List.filter_append, List.filter_cons, h]
  · intro disk data scenario scol vn vv
    obtain ⟨c, rows⟩ := data
    apply applyElementData_rows_congr
    exact filter_self_idem _ _
  · intro disk data r0 seqName scen h
    apply applySequenceDataRowwise_congr
    simp [List.filter_append, List.filter_cons, h]
  · intro disk data seqName scen
    apply applySequenceDataRowwise_congr
    exact filter_self_idem _ _

/-- Witness for C5 at concrete data: appending a row with the non-matching
selector `"other"` changes neither the element-override nor the
rowwise-override outcome. -/
theorem claim_C5_witness :
    applyElementData disk0 ⟨["scenario", "name", "amount"],
        [[("scenario", "base"), ("name", "d1"), ("amount", "10")],
         [("scenario", "other"), ("name", "d1"), ("amount", "99")]]⟩
        "base" "scenario" "var_name" "var_value"
      = applyElementData disk0 ⟨["scenario", "name", "amount"],
        [[("scenario", "base"), ("name", "d1"), ("amount", "10")]]⟩
        "base" "scenario" "var_name" "var_value"
    ∧ applySequenceDataRowwise disk0
        [⟨"other", "x", ["7", "7", "7"], []⟩] "edp" "base"
      = applySequenceDataRowwise disk0 [] "edp" "base" := by
  constructor
  · exact claim_C5.1 disk0 ["scenario", "name", "amount"]
      [[("scenario", "base"), ("name", "d1"), ("amount", "10")]]
      [("scenario", "other"), ("name", "d1"), ("amount", "99")]
      "base" "scenario" "var_name" "var_value" (by decide)
  · exact claim_C5.2.2.1 disk0 [] ⟨"other", "x", ["7", "7", "7"], []⟩
      "edp" "base" (by decide)

theorem find?_eq_of_first {α : Type} (p : α → Bool) (l : List α) (i : Nat)
    (hi : i < l.length) (hp : p (l.get ⟨i, hi⟩) = true)
    (hmin : ∀ j (hj : j < i), p (l.get ⟨j, Nat.lt_trans hj hi⟩) = false) :
    l.find? p = some (l.get ⟨i, hi⟩) := by
  induction l generalizing i with
  | nil => exact absurd hi (by simp)
  | cons a tl ih =>
      cases i with
      | zero => simp_all [List.find?_cons]
      | succ i' =>
          have h0 : p a = false := hmin 0 (Nat.succ_pos i')
          have hi' : i' < tl.length := Nat.lt_of_succ_lt_succ hi
          have := ih i' hi' hp (fun j hj => hmin (j + 1) (Nat.succ_lt_succ hj))
          simpa [List.find?_cons, h0] using this

theorem find?_range_eq_some (p : Nat → Bool) (n i : Nat) (hi : i < n)
    (hp : p i = true) (hmin : ∀ j, j < i → p j = false) :
    (List.range n).find? p = some i := by
  have hg : ∀ (j : Nat) (hj : j < (List.range n).length),
      (List.range n).get ⟨j, hj⟩ = j := by
    intro j hj
    simp
  have h := find?_eq_of_first p (List.range n) i (by simpa using hi)
    (by rw [hg]; exact hp) (fun j hj => by rw [hg]; exact hmin j hj)
  rw [hg] at h
  exact h

/-- With pairwise-distinct `timeindex` values and a series exactly as long as
the table, the SQL join of `apply_sequence_data_rowwise` degenerates to the
purely positional update: row `i` receives `series[i]`. -/
theorem rowwiseUpdateColumn_positional (varName : String)
    (series : List String) (t : Table)
    (hlen : series.length = t.rows.length)
    (hall : ∀ r ∈ t.rows, (rowGet r "timeindex").isSome)
    (hnodup : (t.rows.map (fun r => rowGet r "timeindex")).Nodup) :
    rowwiseUpdateColumn varName series t
      = ⟨t.cols, (List.range t.rows.length).map (fun i =>
          rowSet (t.rows.getD i []) varName (series.getD i ""))⟩ := by
  simp only [rowwiseUpdateColumn]
  refine congrArg (Table.mk t.cols) ?_
  apply List.ext_getElem
  · simp
  · intro i h1 h2
    have hi : i < t.rows.length := by simpa using h1
    have hilen : i < series.length := by omega
    obtain ⟨tv, htv⟩ := Option.isSome_iff_exists.mp
      (hall (t.rows.getD i []) (by
        rw [List.getD_eq_getElem?_getD, List.getElem?_eq_getElem hi]
        exact List.getElem_mem hi))
    have hgetD : t.rows.getD i [] = t.rows[i] := by
      rw [List.getD_eq_getElem?_getD, List.getElem?_eq_getElem hi]
      rfl
    rw [hgetD] at htv
    have hfind : (List.range series.length).find? (fun j =>
        decide ((t.rows.map (fun rj => rowGet rj "timeindex")).get? j
          = some (some tv))) = some i := by
      apply find?_range_eq_some _ _ _ hilen
      · have hv : (t.rows.map (fun rj => rowGet rj "timeindex")).get? i
            = some (some tv) := by
          rw [List.get?_eq_getElem?,
            List.getElem?_eq_getElem (by simpa using hi)]
          simp [htv]
        simp only [hv]
        simp
      · intro j hj
        have hjlen : j < t.rows.length := by omega
        have hjv : (t.rows.map (fun rj => rowGet rj "timeindex")).get? j
            = some (rowGet t.rows[j] "timeindex") := by
          rw [List.get?_eq_getElem?,
            List.getElem?_eq_getElem (by simpa using hjlen)]
          simp
        simp only [hjv, decide_eq_false_iff_not, Option.some.injEq]
        intro hcontra
        have hij : (t.rows.map (fun rj => rowGet rj "timeindex")).get
            ⟨j, by simpa using hjlen⟩
            = (t.rows.map (fun rj => rowGet rj "timeindex")).get
            ⟨i, by simpa using hi⟩ := by
          simp only [List.get_eq_getElem, List.getElem_map]
          rw [hcontra, htv]
        have := (List.Nodup.get_inj_iff hnodup).mp hij
        have : j = i := by simpa using this
        omega
    simp only [List.getElem_map, List.getElem_range, hgetD]
    simp only [htv, hfind]

/-- C6: ROWWISE sequence overrides are applied positionally.  For an
override row whose value list is exactly as long as the target time index
(and with the time index pairwise distinct, as a time index is): if its
variable name is a data column of the target, row `i` of that column becomes
the `i`-th list element for every `i`, by row order alone; if it is not, the
table is unchanged; and the result is independent of whatever other columns
(timestamps included) the override row carries. -/
theorem claim_C6 (disk : DiskPackage) (rw : RowwiseRow)
    (seqName scenario : String) (res : StoredResource) (t : Table)
    (hres : findResource disk seqName = some res)
    (hfile : getAssoc disk.files res.path = some t)
    (hsel : rw.selector = scenario ∨ rw.selector = "ALL")
    (hlen : rw.series.length = t.rows.length)
    (hall : ∀ r ∈ t.rows, (rowGet r "timeindex").isSome)
    (hnodup : (t.rows.map (fun r => rowGet r "timeindex")).Nodup) :
    (rw.varName ∈ t.cols → rw.varName ≠ "timeindex" →
      applySequenceDataRowwise disk [rw] seqName scenario
        = .ok (DiskPackage.mk disk.descriptor
            (setAssoc disk.files res.path
              (Table.mk t.cols ((List.range t.rows.length).map (fun i =>
                rowSet (t.rows.getD i []) rw.varName (rw.series.getD i ""))))),
          [res.path]))
    ∧ (¬ rw.varName ∈ t.cols →
      applySequenceDataRowwise disk [rw] seqName scenario
        = .ok (DiskPackage.mk disk.descriptor
            (setAssoc disk.files res.path t),
          [res.path]))
    ∧ (∀ rest', applySequenceDataRowwise disk
          [{ rw with rest := rest' }] seqName scenario
        = applySequenceDataRowwise disk [rw] seqName scenario) := by
  have hfilter : [rw].filter (fun r =>
      r.selector == scenario || r.selector == "ALL") = [rw] := by
    rcases hsel with h | h <;> simp [List.filter_cons, h]
  refine ⟨?_, ?_, ?_⟩
  · intro hmem hne
    have hmem' : rw.varName ∈ t.cols.filter (fun c => c ≠ "timeindex") := by
      simp [List.mem_filter, hmem, hne]
    simp only [applySequenceDataRowwise, hres, hfile, hfilter,
      List.foldl_cons, List.foldl_nil]
    rw [if_pos hmem']
    rw [rowwiseUpdateColumn_positional rw.varName rw.series t hlen hall
      hnodup]
  · intro hmem
    have hmem' : ¬ rw.varName ∈ t.cols.filter (fun c => c ≠ "timeindex") :=
      fun hc => hmem (List.mem_filter.mp hc).1
    simp only [applySequenceDataRowwise, hres, hfile, hfilter,
      List.foldl_cons, List.foldl_nil]
    rw [if_neg hmem']
  · intro rest'
    simp only [applySequenceDataRowwise, hres, hfile]
    by_cases hb : (rw.selector == scenario || rw.selector == "ALL") = true
    · simp [List.filter_cons, hb]
    · simp [List.filter_cons, hb]

/-- Witness for C6: the series `[1,2,3]` lands positionally in column `x` of
the three-step target, the override's own timestamp column being junk. -/
theorem claim_C6_witness :
    applySequenceDataRowwise disk0
        [⟨"ALL", "x", ["1", "2", "3"], [("timeindex", "junk")]⟩] "edp" "base"
      = .ok (DiskPackage.mk disk0.descriptor
          (setAssoc disk0.files "data/sequences/edp.csv"
            (Table.mk ["timeindex", "x", "y"]
              [[("timeindex", "t0"), ("x", "1"), ("y", "5")],
               [("timeindex", "t1"), ("x", "2"), ("y", "6")],
               [("timeindex", "t2"), ("x", "3"), ("y", "7")]])),
        ["data/sequences/edp.csv"]) := by
  have h := (claim_C6 disk0
    ⟨"ALL", "x", ["1", "2", "3"], [("timeindex", "junk")]⟩ "edp" "base"
    ⟨"edp", "data/sequences/edp.csv"⟩ tableEdp rfl rfl (Or.inr rfl)
    (by decide) (by decide) (by decide)).1 (by decide) (by decide)
  exact h.trans (by rfl)

theorem mergeTable_cols (key : String) (ucols : List String)
    (dataRows : List Row) (t : Table) :
    (mergeTable key ucols dataRows t).cols = t.cols := rfl

theorem mergeTable_length (key : String) (ucols : List String)
    (dataRows : List Row) (t : Table) :
    (mergeTable key ucols dataRows t).rows.length = t.rows.length := by
  simp [mergeTable]

theorem mergeTable_unmatched (key : String) (ucols : List String)
    (dataRows : List Row) (t : Table) (i : Nat) (hi : i < t.rows.length)
    (hi' : i < (mergeTable key ucols dataRows t).rows.length)
    (hcond : ∀ d ∈ dataRows, ∀ kv,
      rowGet (t.rows.get ⟨i, hi⟩) key = some kv →
      ¬ rowGet d key = some kv) :
    (mergeTable key ucols dataRows t).rows.get ⟨i, hi'⟩
      = t.rows.get ⟨i, hi⟩ := by
  simp only [mergeTable, List.get_eq_getElem, List.getElem_map]
  simp only [List.get_eq_getElem] at hcond
  cases hkv : rowGet t.rows[i] key with
  | none => simp [hkv]
  | some kv =>
      have hfind : dataRows.find? (fun d => rowGet d key = some kv)
          = none := by
        rw [List.find?_eq_none]
        intro d hd
        simpa using hcond d hd kv hkv
      simp [hkv, hfind]

theorem mergeRunInv_refl (key : String) (dataTable : Table)
    (excluded : List String) (a : DiskPackage × List String) :
    mergeRunInv key dataTable excluded a a := by
  refine ⟨rfl, fun p hp => hp, ?_⟩
  intro path t0 h
  exact ⟨t0, h, rfl, rfl, fun i hi hi' _ => rfl, fun _ => Or.inr rfl,
    fun _ => Iff.rfl⟩

theorem mergeRunInv_trans (key : String) (dataTable : Table)
    (excluded : List String) (a b c : DiskPackage × List String)
    (hab : mergeRunInv key dataTable excluded a b)
    (hbc : mergeRunInv key dataTable excluded b c) :
    mergeRunInv key dataTable excluded a c := by
  obtain ⟨hd1, hw1, hf1⟩ := hab
  obtain ⟨hd2, hw2, hf2⟩ := hbc
  refine ⟨hd2.trans hd1, fun p hp => hw2 p (hw1 p hp), ?_⟩
  intro path t0 h0
  obtain ⟨t1, hg1, hc1, hl1, hu1, hnw1, hecols1⟩ := hf1 path t0 h0
  obtain ⟨t2, hg2, hc2, hl2, hu2, hnw2, hecols2⟩ := hf2 path t1 hg1
  refine ⟨t2, hg2, hc2.trans hc1, hl2.trans hl1, ?_, ?_, ?_⟩
  · intro i hi hi' hcond
    have hi1 : i < t1.rows.length := by omega
    have hrow1 : t1.rows.get ⟨i, hi1⟩ = t0.rows.get ⟨i, hi⟩ :=
      hu1 i hi hi1 hcond
    have hcond1 : ∀ d ∈ dataTable.rows, ∀ kv,
        rowGet (t1.rows.get ⟨i, hi1⟩) key = some kv →
        ¬ rowGet d key = some kv := by
      rw [hrow1]
      exact hcond
    exact (hu2 i hi1 hi' hcond1).trans hrow1
  · intro hnw
    have hnb : ¬ path ∈ b.2 := fun hb => hnw (hw2 path hb)
    rcases hnw1 hnb with ha | ht1
    · exact Or.inl ha
    · rcases hnw2 hnw with hb | ht2
      · exact absurd hb hnb
      · exact Or.inr (ht2.trans ht1)
  · intro hcols
    have hcols1 : updateColumns dataTable.cols t1.cols excluded = [] := by
      rw [hc1]
      exact hcols
    exact (hecols2 hcols1).trans (hecols1 hcols)

/-- The disk/written-state transition performed by one `COPY`-backed merge of
a single resource file satisfies the run invariant. -/
theorem mergeRunInv_write (key : String) (dataTable : Table)
    (excluded : List String) (st : DiskPackage × List String) (path : String)
    (t : Table) (hget : getAssoc st.1.files path = some t)
    (hu : ¬ updateColumns dataTable.cols t.cols excluded = []) :
    mergeRunInv key dataTable excluded st
      (DiskPackage.mk st.1.descriptor
        (setAssoc st.1.files path
          (mergeTable key (updateColumns dataTable.cols t.cols excluded)
            dataTable.rows t)),
        st.2 ++ [path]) := by
  refine ⟨rfl, fun p hp => List.mem_append_left _ hp, ?_⟩
  intro q t0 hq
  by_cases hpq : q = path
  · subst hpq
    have ht0 : t0 = t := by
      rw [hget] at hq
      exact (Option.some.inj hq).symm
    subst ht0
    refine ⟨mergeTable key (updateColumns dataTable.cols t0.cols excluded)
      dataTable.rows t0, ?_, mergeTable_cols _ _ _ _,
      mergeTable_length _ _ _ _, ?_, ?_, ?_⟩
    · exact getAssoc_setAssoc_self _ _ _
    · intro i hi hi' hcond
      exact mergeTable_unmatched _ _ _ _ i hi hi' hcond
    · intro hnw
      exact absurd (List.mem_append_right _ (by simp)) hnw
    · intro hcols
      exact absurd hcols hu
  · refine ⟨t0, ?_, rfl, rfl, fun i hi hi' _ => rfl,
      fun _ => Or.inr rfl, ?_⟩
    · rw [show (DiskPackage.mk st.1.descriptor
          (setAssoc st.1.files path (mergeTable key
            (updateColumns dataTable.cols t.cols excluded)
            dataTable.rows t))).files
          = setAssoc st.1.files path (mergeTable key
            (updateColumns dataTable.cols t.cols excluded)
            dataTable.rows t) from rfl]
      rw [getAssoc_setAssoc_ne _ _ _ _ hpq]
      exact hq
    · intro _
      simp [List.mem_append, hpq]

theorem applyElementDataStep_inv (dataTable : Table) (scol : String)
    (st : DiskPackage × List String) (res : StoredResource)
    (st₁ : DiskPackage × List String)
    (h : applyElementDataStep dataTable scol st res = .ok st₁) :
    mergeRunInv "name" dataTable ["name", scol, "id"] st st₁ := by
  by_cases hseq : strContains res.path "sequences"
  · simp [applyElementDataStep, hseq, exceptPure_eq] at h
    rw [← h]
    exact mergeRunInv_refl _ _ _ _
  · cases hget : getAssoc st.1.files res.path with
    | none => simp [applyElementDataStep, hseq, hget] at h
    | some t =>
        by_cases hu : updateColumns dataTable.cols t.cols
            ["name", scol, "id"] = []
        · simp [applyElementDataStep, hseq, hget, hu, exceptPure_eq] at h
          rw [← h]
          exact mergeRunInv_refl _ _ _ _
        · by_cases hn : "name" ∈ t.cols ∧ "name" ∈ dataTable.cols
          · simp [applyElementDataStep, hseq, hget, hu, hn,
              exceptPure_eq] at h
            rw [← h]
            exact mergeRunInv_write "name" dataTable ["name", scol, "id"]
              st res.path t hget hu
          · simp [applyElementDataStep, hseq, hget, hu, hn] at h

theorem applyElementDataFold_inv (dataTable : Table) (scol : String)
    (descr : List StoredResource) :
    ∀ (st out : DiskPackage × List String),
    descr.foldlM (applyElementDataStep dataTable scol) st = .ok out →
    mergeRunInv "name" dataTable ["name", scol, "id"] st out := by
  induction descr with
  | nil =>
      intro st out h
      simp [List.foldlM, exceptPure_eq] at h
      rw [← h]
      exact mergeRunInv_refl _ _ _ _
  | cons res rest ih =>
      intro st out h
      rw [List.foldlM_cons] at h
      cases hstep : applyElementDataStep dataTable scol st res with
      | error e =>
          rw [hstep, exceptBind_error] at h
          exact absurd h (by simp)
      | ok st₁ =>
          rw [hstep, exceptBind_ok] at h
          exact mergeRunInv_trans _ _ _ _ _ _
            (applyElementDataStep_inv dataTable scol st res st₁ hstep)
            (ih st₁ out h)

/-- C4: every keyed override run preserves the row set and the descriptor.
For element overrides and for timeindex-matched sequence overrides, starting
from the rendered package: the descriptor is never modified, every resource
file keeps its exact row count (override rows matching no target row are
ignored and never inserted), target rows whose key value occurs in no
override row keep their values, a file that was not rewritten keeps its
previous content, and a resource with no overlapping non-key columns is
never rewritten. -/
theorem claim_C4 :
    (∀ (disk : DiskPackage) (data : Table) (scenario scol vn vv : String)
        (out : DiskPackage × List String),
      applyElementData disk data scenario scol vn vv = .ok out →
      mergeRunInv "name" (elementDataTable data scenario scol vn vv)
        ["name", scol, "id"] (disk, []) out)
    ∧ (∀ (disk : DiskPackage) (data : Table) (seqName : String)
        (out : DiskPackage × List String),
      applySequenceData disk data seqName = .ok out →
      mergeRunInv "timeindex" data ["timeindex"] (disk, []) out) := by
  constructor
  · intro disk data scenario scol vn vv out h
    by_cases h1 : ¬ scol ∈ data.cols
    · simp [applyElementData, h1] at h
    · by_cases h2 : (vn ∈ data.cols ∧ vv ∈ data.cols)
          ∧ ¬ "name" ∈ data.cols
      · simp [applyElementData, h1, h2] at h
      · simp only [applyElementData, if_neg h1, if_neg h2] at h
        exact applyElementDataFold_inv _ scol disk.descriptor (disk, [])
          out h
  · intro disk data seqName out h
    cases hfr : findResource disk seqName with
    | none => simp [applySequenceData, hfr] at h
    | some res =>
        cases hget : getAssoc disk.files res.path with
        | none => simp [applySequenceData, hfr, hget] at h
        | some t =>
            by_cases hu : updateColumns data.cols t.cols ["timeindex"] = []
            · simp [applySequenceData, hfr, hget, hu, exceptPure_eq] at h
              rw [← h]
              exact mergeRunInv_refl _ _ _ _
            · by_cases hn : "timeindex" ∈ t.cols ∧ "timeindex" ∈ data.cols
              · simp [applySequenceData, hfr, hget, hu, hn,
                  exceptPure_eq] at h
                rw [← h]
                have hw := mergeRunInv_write "timeindex" data ["timeindex"]
                  (disk, []) res.path t hget hu
                simpa using hw
              · simp [applySequenceData, hfr, hget, hu, hn] at h

/-- Witness for C4: a concrete element override and a concrete sequence
override both succeed, leave the descriptor untouched and preserve the
target's row count. -/
theorem claim_C4_witness :
    applyElementData disk0 elemOverrideBase "base" "scenario" "var_name"
        "var_value" = .ok c4elemOut
    ∧ c4elemOut.1.descriptor = disk0.descriptor
    ∧ (∃ t', getAssoc c4elemOut.1.files "data/elements/ed.csv" = some t'
        ∧ t'.rows.length = tableEd.rows.length)
    ∧ applySequenceData disk0 seqOverrideOther "edp" = .ok c4seqOut
    ∧ c4seqOut.1.descriptor = disk0.descriptor := by
  have h1 := claim_C4.1 disk0 elemOverrideBase "base" "scenario" "var_name"
    "var_value" c4elemOut (by rfl)
  have h2 := claim_C4.2 disk0 seqOverrideOther "edp" c4seqOut (by rfl)
  refine ⟨rfl, h1.1, ?_, rfl, h2.1⟩
  obtain ⟨t', hget, _, hlen, _⟩ := h1.2.2 "data/elements/ed.csv" tableEd
    (by rfl)
  exact ⟨t', hget, hlen⟩

theorem addDefaultSequenceFKs_ok_eq (attributes : List String) :
    ∀ (seqFields : List String) (inst r : Row),
    addDefaultSequenceFKs seqFields attributes inst = .ok r →
    r = addDefaultSequenceFKsP seqFields attributes inst := by
  intro seqFields
  induction seqFields with
  | nil =>
      intro inst r h
      simp [addDefaultSequenceFKs] at h
      simp [addDefaultSequenceFKsP, h]
  | cons s rest ih =>
      intro inst r h
      simp only [addDefaultSequenceFKs] at h
      simp only [addDefaultSequenceFKsP]
      by_cases hskip : rowHas inst s ∨ ¬ s ∈ attributes
      · rw [if_pos hskip] at h
        rw [if_pos hskip]
        exact ih inst r h
      · rw [if_neg hskip] at h
        rw [if_neg hskip]
        cases hn : rowGet inst "name" with
        | none =>
            rw [hn] at h
            exact absurd h (by simp)
        | some n =>
            rw [hn] at h
            have := ih _ r h
            simpa using this
      

theorem addDefaultSequenceFKs_ok (seqFields attributes : List String)
    (inst : Row) (h : rowHas inst "name") :
    addDefaultSequenceFKs seqFields attributes inst
      = .ok (addDefaultSequenceFKsP seqFields attributes inst) := by
  induction seqFields generalizing inst with
  | nil => rfl
  | cons s rest ih =>
      simp only [addDefaultSequenceFKs, addDefaultSequenceFKsP]
      by_cases hskip : rowHas inst s ∨ ¬ s ∈ attributes
      · rw [if_pos hskip, if_pos hskip]
        exact ih inst h
      · rw [if_neg hskip, if_neg hskip]
        obtain ⟨n, hn⟩ := Option.isSome_iff_exists.mp h
        rw [hn]
        have h' : rowHas (rowSet inst s (n ++ "-profile")) "name" :=
          rowHas_rowSet_of_rowHas _ _ _ _ h
        have := ih _ h'
        simpa [hn] using this

theorem rowGet_addDefaultSequenceFKsP (attributes : List String) :
    ∀ (seqFields : List String) (inst : Row) (k : String),
    (¬ k ∈ seqFields ∨ rowHas inst k) →
    rowGet (addDefaultSequenceFKsP seqFields attributes inst) k
      = rowGet inst k := by
  intro seqFields
  induction seqFields with
  | nil => intro inst k _; rfl
  | cons s rest ih =>
      intro inst k hk
      simp only [addDefaultSequenceFKsP]
      by_cases hskip : rowHas inst s ∨ ¬ s ∈ attributes
      · rw [if_pos hskip]
        have hk' : ¬ k ∈ rest ∨ rowHas inst k := by
          rcases hk with hk | hk
          · exact Or.inl (fun hmem => hk (List.mem_cons_of_mem _ hmem))
          · exact Or.inr hk
        exact ih inst k hk'
      · rw [if_neg hskip]
        have hsk : s ≠ k := by
          intro hcontra
          subst hcontra
          rcases hk with hk | hk
          · exact hk (List.mem_cons_self _ _)
          · exact hskip (Or.inl hk)
        have hget : rowGet (rowSet inst s
            (((rowGet inst "name").getD "") ++ "-profile")) k
            = rowGet inst k :=
          rowGet_rowSet_ne _ _ _ _ (fun hh => hsk hh.symm)
        have hk' : ¬ k ∈ rest ∨ rowHas (rowSet inst s
            (((rowGet inst "name").getD "") ++ "-profile")) k := by
          rcases hk with hk | hk
          · exact Or.inl (fun hmem => hk (List.mem_cons_of_mem _ hmem))
          · exact Or.inr (rowHas_rowSet_of_rowHas _ _ _ _ hk)
        rw [ih _ k hk', hget]

theorem addDefaultSequenceFKsP_skip (attributes : List String) :
    ∀ (seqFields : List String) (inst : Row),
    (∀ s ∈ seqFields, rowHas inst s ∨ ¬ s ∈ attributes) →
    addDefaultSequenceFKsP seqFields attributes inst = inst := by
  intro seqFields
  induction seqFields with
  | nil => intro inst _; rfl
  | cons s rest ih =>
      intro inst hall
      simp only [addDefaultSequenceFKsP]
      rw [if_pos (hall s (List.mem_cons_self _ _))]
      exact ih inst (fun s' hs' => hall s' (List.mem_cons_of_mem _ hs'))

theorem rowGet_typeFilled_ne (cn : String) (r : Row) (k : String)
    (h : k ≠ "type") : rowGet (typeFilled cn r) k = rowGet r k := by
  simp only [typeFilled]
  by_cases ht : rowHas r "type"
  · rw [if_pos ht]
  · rw [if_neg ht]
    exact rowGet_rowSet_ne _ _ _ _ h

theorem rowGet_adaptRegions_not_mem (region : String) :
    ∀ (busses : List String) (r : Row) (k : String), ¬ k ∈ busses →
    rowGet (adaptRegionsInBusses busses region r) k = rowGet r k := by
  intro busses
  induction busses with
  | nil => intro r k _; rfl
  | cons b rest ih =>
      intro r k hk
      have hbk : b ≠ k := fun hh => hk (hh ▸ List.mem_cons_self _ _)
      have hk' : ¬ k ∈ rest := fun hh => hk (List.mem_cons_of_mem _ hh)
      simp only [adaptRegionsInBusses, List.foldl_cons]
      cases hv : rowGet r b with
      | none =>
          simpa only [adaptRegionsInBusses] using ih r k hk'
      | some v =>
          have := ih (rowSet r b (region ++ "-" ++ v)) k hk'
          simp only [adaptRegionsInBusses] at this
          rw [this, rowGet_rowSet_ne _ _ _ _ (fun hh => hbk hh.symm)]

theorem rowGet_adaptRegions_mem (region : String) :
    ∀ (busses : List String) (r : Row) (k : String), k ∈ busses →
    busses.Nodup →
    rowGet (adaptRegionsInBusses busses region r) k
      = (rowGet r k).map (fun v => region ++ "-" ++ v) := by
  intro busses
  induction busses with
  | nil => intro r k hk _; simp at hk
  | cons b rest ih =>
      intro r k hk hnd
      have hnd' : rest.Nodup := (List.nodup_cons.mp hnd).2
      have hbrest : ¬ b ∈ rest := (List.nodup_cons.mp hnd).1
      simp only [adaptRegionsInBusses, List.foldl_cons]
      by_cases hkb : k = b
      · subst hkb
        cases hv : rowGet r k with
        | none =>
            have := rowGet_adaptRegions_not_mem region rest r k hbrest
            simp only [adaptRegionsInBusses] at this
            rw [this, hv]
            rfl
        | some v =>
            have := rowGet_adaptRegions_not_mem region rest
              (rowSet r k (region ++ "-" ++ v)) k hbrest
            simp only [adaptRegionsInBusses] at this
            rw [this, rowGet_rowSet_self]
            rfl
      · have hkrest : k ∈ rest := by
          rcases List.mem_cons.mp hk with hh | hh
          · exact absurd hh hkb
          · exact hh
        cases hv : rowGet r b with
        | none =>
            simpa only [adaptRegionsInBusses] using ih r k hkrest hnd'
        | some v =>
            have := ih (rowSet r b (region ++ "-" ++ v)) k hkrest hnd'
            simp only [adaptRegionsInBusses] at this
            rw [this, rowGet_rowSet_ne _ _ _ _ hkb]

theorem regionReplica_ok_eq (comp : Component) (sf attrs : List String)
    (region : String) (inst r : Row)
    (h : regionReplica comp sf attrs region inst = .ok r) :
    r = replicaRow comp sf attrs region inst := by
  simp only [regionReplica] at h
  split at h
  next hn =>
      exact absurd h (by simp)
  next n hn =>
      cases hfk : addDefaultSequenceFKs sf attrs
          (rowSet (rowSet inst "region" region) "name"
            (region ++ "-" ++ n)) with
      | error e =>
          rw [hfk, exceptBind_error] at h
          exact absurd h (by simp)
      | ok c3 =>
          rw [hfk, exceptBind_ok, exceptPure_eq] at h
          have hc3 := addDefaultSequenceFKs_ok_eq attrs sf _ c3 hfk
          have hr : r = adaptRegionsInBusses comp.busses region c3 :=
            (Except.ok.inj h).symm
          rw [hr, hc3]
          simp [replicaRow, hn]

theorem replicaRow_props (comp : Component) (sf attrs : List String)
    (region : String) (inst : Row) (n cn : String)
    (hn : rowGet inst "name" = some n)
    (hnodup : comp.busses.Nodup)
    (hbus : ∀ b ∈ comp.busses,
      b ≠ "name" ∧ b ≠ "region" ∧ b ≠ "type" ∧ ¬ b ∈ sf) :
    rowGet (typeFilled cn (replicaRow comp sf attrs region inst)) "name"
        = some (region ++ "-" ++ n)
    ∧ rowGet (typeFilled cn (replicaRow comp sf attrs region inst)) "region"
        = some region
    ∧ ∀ b ∈ comp.busses,
        rowGet (typeFilled cn (replicaRow comp sf attrs region inst)) b
          = (rowGet inst b).map (fun v => region ++ "-" ++ v) := by
  have hc1name : rowGet (rowSet inst "region" region) "name"
      = some n := by
    rw [rowGet_rowSet_ne _ _ _ _ (by decide)]
    exact hn
  have hrep : replicaRow comp sf attrs region inst
      = adaptRegionsInBusses comp.busses region
        (addDefaultSequenceFKsP sf attrs
          (rowSet (rowSet inst "region" region) "name"
            (region ++ "-" ++ n))) := by
    simp [replicaRow, hc1name]
  have hnamebus : ¬ "name" ∈ comp.busses :=
    fun hmem => (hbus _ hmem).1 rfl
  have hregionbus : ¬ "region" ∈ comp.busses :=
    fun hmem => (hbus _ hmem).2.1 rfl
  have hc2name : rowGet (rowSet (rowSet inst "region" region) "name"
      (region ++ "-" ++ n)) "name" = some (region ++ "-" ++ n) :=
    rowGet_rowSet_self _ _ _
  have hc2region : rowGet (rowSet (rowSet inst "region" region) "name"
      (region ++ "-" ++ n)) "region" = some region := by
    rw [rowGet_rowSet_ne _ _ _ _ (by decide)]
    exact rowGet_rowSet_self _ _ _
  refine ⟨?_, ?_, ?_⟩
  · rw [rowGet_typeFilled_ne _ _ _ (by decide), hrep,
      rowGet_adaptRegions_not_mem _ _ _ _ hnamebus,
      rowGet_addDefaultSequenceFKsP attrs sf _ _
        (Or.inr (by simp [rowHas, hc2name])), hc2name]
  · rw [rowGet_typeFilled_ne _ _ _ (by decide), hrep,
      rowGet_adaptRegions_not_mem _ _ _ _ hregionbus,
      rowGet_addDefaultSequenceFKsP attrs sf _ _
        (Or.inr (by simp [rowHas, hc2region])), hc2region]
  · intro b hb
    obtain ⟨hb1, hb2, hb3, hb4⟩ := hbus b hb
    rw [rowGet_typeFilled_ne _ _ _ hb3, hrep,
      rowGet_adaptRegions_mem _ _ _ _ hb hnodup,
      rowGet_addDefaultSequenceFKsP attrs sf _ _ (Or.inl hb4),
      rowGet_rowSet_ne _ _ _ _ hb1, rowGet_rowSet_ne _ _ _ _ hb2]

theorem addInstance_ok_shape (er er' : ElementResource) (data : Row)
    (h : er.addInstance data = .ok er') :
    er' = appendInstances er [typeFilled er.component.name data] := by
  simp only [ElementResource.addInstance] at h
  split at h
  · exact absurd h (by simp)
  · split at h
    · split at h
      · exact absurd h (by simp)
      · split at h
        · exact absurd h (by simp)
        · exact ((Except.ok.inj h).symm).trans
            (by simp [typeFilled, appendInstances, *])
    · split at h
      · exact absurd h (by simp)
      · split at h
        · exact absurd h (by simp)
        · exact ((Except.ok.inj h).symm).trans
            (by simp [typeFilled, appendInstances, *])

theorem processRegions_ok (comp : Component) (sf attrs : List String)
    (inst : Row) :
    ∀ (regions : List String) (er er' : ElementResource),
    processRegions er comp sf attrs inst regions = (er', none) →
    er' = appendInstances er
      (regions.map (fun region => typeFilled er.component.name
        (replicaRow comp sf attrs region inst))) := by
  intro regions
  induction regions with
  | nil =>
      intro er er' h
      simp only [processRegions] at h
      injection h with h1 _
      subst h1
      simp [appendInstances]
  | cons region rest ih =>
      intro er er' h
      simp only [processRegions] at h
      split at h
      next e hrr =>
          exact absurd (congrArg Prod.snd h) (by simp)
      next replica hrr =>
          split at h
          next e hadd =>
              exact absurd (congrArg Prod.snd h) (by simp)
          next er₁ hadd =>
              have hrep := regionReplica_ok_eq comp sf attrs region inst
                replica hrr
              have hshape := addInstance_ok_shape er er₁ replica hadd
              have hrec := ih er₁ er' h
              subst hrep
              subst hshape
              rw [hrec]
              simp [appendInstances, List.append_assoc]

theorem addInstancesRegions_ok (comp : Component) (sf attrs : List String)
    (regionList : List String) :
    ∀ (insts : List Row) (er er' : ElementResource),
    addInstancesRegions er comp sf attrs regionList insts = (er', none) →
    er' = appendInstances er
      (insts.flatMap (fun inst => regionList.map (fun region =>
        typeFilled er.component.name
          (replicaRow comp sf attrs region inst)))) := by
  intro insts
  induction insts with
  | nil =>
      intro er er' h
      simp only [addInstancesRegions] at h
      injection h with h1 _
      subst h1
      simp [appendInstances]
  | cons inst rest ih =>
      intro er er' h
      simp only [addInstancesRegions] at h
      split at h
      next e hchk =>
          exact absurd (congrArg Prod.snd h) (by simp)
      next hchk =>
          split at h
          next er₁ e hpr =>
              exact absurd (congrArg Prod.snd h) (by simp)
          next er₁ hpr =>
              have hshape := processRegions_ok comp sf attrs inst
                regionList er er₁ hpr
              have hrec := ih er₁ er' h
              subst hshape
              rw [hrec]
              simp [appendInstances, List.append_assoc]

theorem addInstancesRegions_append (comp : Component)
    (sf attrs regionList : List String) :
    ∀ (l1 l2 : List Row) (er er1 : ElementResource),
    addInstancesRegions er comp sf attrs regionList l1 = (er1, none) →
    addInstancesRegions er comp sf attrs regionList (l1 ++ l2)
      = addInstancesRegions er1 comp sf attrs regionList l2 := by
  intro l1
  induction l1 with
  | nil =>
      intro l2 er er1 h
      simp only [addInstancesRegions] at h
      injection h with h1 _
      subst h1
      rfl
  | cons inst rest ih =>
      intro l2 er er1 h
      simp only [addInstancesRegions] at h
      rw [List.cons_append]
      split at h
      next e hchk =>
          exact absurd (congrArg Prod.snd h) (by simp)
      next hchk =>
          split at h
          next er₁ e hpr =>
              exact absurd (congrArg Prod.snd h) (by simp)
          next er₁ hpr =>
              simp only [addInstancesRegions, hchk, hpr]
              exact ih l2 er₁ er1 h

theorem addInstancesNoRegion_ok (sf attrs : List String) :
    ∀ (insts : List Row) (er er' : ElementResource),
    addInstancesNoRegion er sf attrs insts = (er', none) →
    er' = appendInstances er
      (insts.map (fun inst => typeFilled er.component.name
        (addDefaultSequenceFKsP sf attrs inst))) := by
  intro insts
  induction insts with
  | nil =>
      intro er er' h
      simp only [addInstancesNoRegion] at h
      injection h with h1 _
      subst h1
      simp [appendInstances]
  | cons inst rest ih =>
      intro er er' h
      simp only [addInstancesNoRegion] at h
      split at h
      next e hchk =>
          exact absurd (congrArg Prod.snd h) (by simp)
      next hchk =>
          split at h
          next e hfk =>
              exact absurd (congrArg Prod.snd h) (by simp)
          next withFks hfk =>
              split at h
              next e hadd =>
                  exact absurd (congrArg Prod.snd h) (by simp)
              next er₁ hadd =>
                  have hwf := addDefaultSequenceFKs_ok_eq attrs sf inst
                    withFks hfk
                  have hshape := addInstance_ok_shape er er₁ withFks hadd
                  have hrec := ih er₁ er' h
                  subst hwf
                  subst hshape
                  rw [hrec]
                  simp [appendInstances, List.append_assoc]

theorem length_flatMap_const {α β γ : Type} (f : α → β → γ) (rl : List β) :
    ∀ (l : List α),
    (l.flatMap (fun a => rl.map (f a))).length = l.length * rl.length := by
  intro l
  induction l with
  | nil => simp
  | cons a tl ih =>
      simp only [List.flatMap_cons, List.length_append, List.length_map, ih,
        List.length_cons]
      ring

/-- C1: region fan-out.  When a region list applies (resource-level, else
global): N raw instances × R regions yield exactly N×R appended rows, each
being the fully processed replica of its `(instance, region)` pair; each
replica's name is `"<region>-<original-name>"`, its `"region"` attribute is
the region, and every bus-link value present is
`"<region>-<original-value>"`; a raw row's keys are validated before its
replication, so a violation stops the run with no replica of that row added
(earlier rows' replicas are kept); without an applicable region list each
raw instance is appended exactly once, and literally unmodified when it
already carries `"type"` and no sequence foreign key needs synthesizing. -/
theorem claim_C1 :
    (∀ (er : ElementResource) (cfg : ElementConfig)
        (attributes : List String) (regions : Option (List String))
        (regionList : List String) (er' : ElementResource),
      cfg.regions.orElse (fun _ => regions) = some regionList →
      addInstances er cfg attributes regions = (er', none) →
      er' = appendInstances er
        (cfg.instances.flatMap (fun inst => regionList.map (fun region =>
          typeFilled er.component.name
            (replicaRow cfg.component (configSeqFields cfg) attributes
              region inst))))
      ∧ er'.instances.length
        = er.instances.length + cfg.instances.length * regionList.length)
    ∧ (∀ (comp : Component) (sf attrs : List String) (region : String)
        (inst : Row) (n cn : String),
      rowGet inst "name" = some n →
      comp.busses.Nodup →
      (∀ b ∈ comp.busses,
        b ≠ "name" ∧ b ≠ "region" ∧ b ≠ "type" ∧ ¬ b ∈ sf) →
      rowGet (typeFilled cn (replicaRow comp sf attrs region inst)) "name"
          = some (region ++ "-" ++ n)
      ∧ rowGet (typeFilled cn (replicaRow comp sf attrs region inst))
          "region" = some region
      ∧ ∀ b ∈ comp.busses,
          rowGet (typeFilled cn (replicaRow comp sf attrs region inst)) b
            = (rowGet inst b).map (fun v => region ++ "-" ++ v))
    ∧ (∀ (er er1 : ElementResource) (comp : Component)
        (sf attrs regionList : List String) (pre post : List Row)
        (bad : Row) (e : String),
      addInstancesRegions er comp sf attrs regionList pre = (er1, none) →
      checkInstanceAttributes attrs er1.name bad = some e →
      addInstancesRegions er comp sf attrs regionList (pre ++ bad :: post)
        = (er1, some e))
    ∧ (∀ (er : ElementResource) (cfg : ElementConfig)
        (attributes : List String) (regions : Option (List String))
        (er' : ElementResource),
      cfg.regions.orElse (fun _ => regions) = none →
      addInstances er cfg attributes regions = (er', none) →
      er' = appendInstances er
        (cfg.instances.map (fun inst => typeFilled er.component.name
          (addDefaultSequenceFKsP (configSeqFields cfg) attributes inst)))
      ∧ ((∀ inst ∈ cfg.instances, rowHas inst "type"
          ∧ ∀ s ∈ configSeqFields cfg, rowHas inst s ∨ ¬ s ∈ attributes) →
        er'.instances = er.instances ++ cfg.instances)) := by
  refine ⟨?_, ?_, ?_, ?_⟩
  · intro er cfg attributes regions regionList er' h1 h2
    simp only [addInstances, h1] at h2
    have hshape := addInstancesRegions_ok cfg.component (configSeqFields cfg)
      attributes regionList cfg.instances er er' h2
    refine ⟨hshape, ?_⟩
    rw [hshape]
    have hlen := length_flatMap_const (fun inst region =>
        typeFilled er.component.name
          (replicaRow cfg.component (configSeqFields cfg) attributes region
            inst)) regionList cfg.instances
    simp only [appendInstances, List.length_append, hlen]
  · intro comp sf attrs region inst n cn hn hnodup hbus
    exact replicaRow_props comp sf attrs region inst n cn hn hnodup hbus
  · intro er er1 comp sf attrs regionList pre post bad e h1 h2
    rw [addInstancesRegions_append comp sf attrs regionList pre
      (bad :: post) er er1 h1]
    simp [addInstancesRegions, h2]
  · intro er cfg attributes regions er' h1 h2
    simp only [addInstances, h1] at h2
    have hshape := addInstancesNoRegion_ok (configSeqFields cfg) attributes
      cfg.instances er er' h2
    refine ⟨hshape, ?_⟩
    intro hall
    have hrow : ∀ inst ∈ cfg.instances,
        typeFilled er.component.name
          (addDefaultSequenceFKsP (configSeqFields cfg) attributes inst)
          = inst := by
      intro inst hin
      obtain ⟨hty, hsk⟩ := hall inst hin
      rw [addDefaultSequenceFKsP_skip attributes _ inst hsk]
      simp [typeFilled, hty]
    have hmap : cfg.instances.map (fun inst =>
        typeFilled er.component.name
          (addDefaultSequenceFKsP (configSeqFields cfg) attributes inst))
        = cfg.instances := by
      calc cfg.instances.map (fun inst =>
              typeFilled er.component.name
                (addDefaultSequenceFKsP (configSeqFields cfg) attributes
                  inst))
          = cfg.instances.map id :=
            List.map_congr_left (fun a ha => hrow a ha)
        _ = cfg.instances := List.map_id _
    rw [hshape]
    simp [appendInstances, hmap]

/-- Witness for C1: two regions replicate one instance into two rows with
prefixed name/bus/profile values; an undeclared key stops the run before
any replica; a fully explicit instance passes through literally. -/
theorem claim_C1_witness :
    erReg.instances.length = 2
    ∧ rowGet (typeFilled "load" (replicaRow comp0 ["profile"] attrsAll "BB"
        [("name", "d1"), ("bus", "electricity")])) "bus"
      = some "BB-electricity"
    ∧ addInstancesRegions er0 comp0 ["profile"] ["amount"] ["BB"]
        ([] ++ [("oops", "1")] :: [])
      = (er0, some "Attribute 'oops' not available for 'electricity_demand'.")
    ∧ erPass.instances
      = er0.instances ++ [[("name", "d1"), ("type", "load"),
          ("profile", "p")]] := by
  refine ⟨?_, ?_, ?_, ?_⟩
  · have h := (claim_C1.1 er0 cfgReg attrsAll none ["BB", "B"] erReg
      rfl rfl).2
    simpa using h
  · have h := ((claim_C1.2.1 comp0 ["profile"] attrsAll "BB"
      [("name", "d1"), ("bus", "electricity")] "d1" "load"
      (by decide) (by decide) (by decide)).2.2) "bus" (by decide)
    exact h.trans rfl
  · exact claim_C1.2.2.1 er0 er0 comp0 ["profile"] ["amount"] ["BB"]
      [] [] [("oops", "1")]
      "Attribute 'oops' not available for 'electricity_demand'." rfl rfl
  · exact (claim_C1.2.2.2 er0 cfgPass attrsAll none erPass rfl rfl).2
      (by decide)

theorem setAssoc_of_not_mem {α : Type} (l : List (String × α)) (k : String)
    (v : α) (h : ¬ k ∈ keysOf l) : setAssoc l k v = l ++ [(k, v)] := by
  induction l with
  | nil => rfl
  | cons hd tl ih =>
      obtain ⟨k₀, v₀⟩ := hd
      have h0 : k₀ ≠ k := fun hh => h (by simp [keysOf_cons, hh])
      have h' : ¬ k ∈ keysOf tl := fun hh => h (by simp [keysOf_cons, hh])
      simp [setAssoc, h0, ih h']

theorem getAssoc_mem_keys {α : Type} (l : List (String × α)) (k : String)
    (v : α) (h : getAssoc l k = some v) : k ∈ keysOf l := by
  induction l with
  | nil => simp [getAssoc] at h
  | cons hd tl ih =>
      obtain ⟨k₀, v₀⟩ := hd
      by_cases h0 : k₀ = k
      · simp [keysOf_cons, h0]
      · rw [show getAssoc ((k₀, v₀) :: tl) k = getAssoc tl k by
          simp [getAssoc, h0]] at h
        simp [keysOf_cons, ih h]

theorem inferSequencesStep_sequence (acc : PackageState) (nm : String)
    (sr : SequenceResource) :
    inferSequencesStep acc (nm, .sequence sr) = acc := rfl

theorem inferSequencesStep_element (acc : PackageState) (nm : String)
    (er : ElementResource) :
    inferSequencesStep acc (nm, .element er)
      = if er.sequences ≠ []
          ∧ er.sequences.any (fun s => s ∈ keysOf er.fields) then
          (if (er.name ++ "_profile") ∈ resourceNames acc then acc
            else addResource acc
              (.sequence (createSequenceResource (er.name ++ "_profile")
                none)))
        else acc := rfl

theorem inferSequencesStep_shape (acc : PackageState)
    (pr : String × Resource) :
    inferSequencesStep acc pr = acc
    ∨ ∃ er : ElementResource, pr.2 = .element er
        ∧ ¬ (er.name ++ "_profile") ∈ resourceNames acc
        ∧ inferSequencesStep acc pr = ⟨acc.resources
            ++ [(er.name ++ "_profile",
              .sequence (createSequenceResource (er.name ++ "_profile")
                none))]⟩ := by
  obtain ⟨nm, r⟩ := pr
  cases r with
  | sequence sr => exact Or.inl rfl
  | element er =>
      by_cases hc : er.sequences ≠ []
          ∧ er.sequences.any (fun s => s ∈ keysOf er.fields)
      · by_cases hm : (er.name ++ "_profile") ∈ resourceNames acc
        · exact Or.inl (by rw [inferSequencesStep_element, if_pos hc,
            if_pos hm])
        · refine Or.inr ⟨er, rfl, hm, ?_⟩
          rw [inferSequencesStep_element, if_pos hc, if_neg hm]
          simp only [addResource]
          rw [show (Resource.sequence (createSequenceResource
            (er.name ++ "_profile") none)).resName
            = er.name ++ "_profile" from rfl]
          rw [setAssoc_of_not_mem _ _ _ hm]
      · exact Or.inl (by rw [inferSequencesStep_element, if_neg hc])

theorem inferSequencesStep_names_mono (acc : PackageState)
    (pr : String × Resource) (n : String) (h : n ∈ resourceNames acc) :
    n ∈ resourceNames (inferSequencesStep acc pr) := by
  rcases inferSequencesStep_shape acc pr with hs | ⟨er, _, _, hs⟩
  · rw [hs]; exact h
  · rw [hs]
    simp only [resourceNames, keysOf] at h ⊢
    simp [h]

theorem inferSequencesFold_names_mono (l : List (String × Resource)) :
    ∀ (acc : PackageState) (n : String), n ∈ resourceNames acc →
    n ∈ resourceNames (l.foldl inferSequencesStep acc) := by
  induction l with
  | nil => intro acc n h; exact h
  | cons pr rest ih =>
      intro acc n h
      rw [List.foldl_cons]
      exact ih _ n (inferSequencesStep_names_mono acc pr n h)

theorem inferSequencesFold_ensures (l : List (String × Resource)) :
    ∀ (acc : PackageState) (pr : String × Resource), pr ∈ l →
    ∀ er : ElementResource, pr.2 = .element er →
    (er.sequences ≠ [] ∧ er.sequences.any (fun s => s ∈ keysOf er.fields)) →
    (er.name ++ "_profile")
      ∈ resourceNames (l.foldl inferSequencesStep acc) := by
  induction l with
  | nil => intro acc pr h; simp at h
  | cons pr0 rest ih =>
      intro acc pr hpr er her hc
      rw [List.foldl_cons]
      rcases List.mem_cons.mp hpr with hh | hh
      · subst hh
        obtain ⟨nm, r⟩ := pr
        have her' : r = .element er := her
        subst her'
        apply inferSequencesFold_names_mono
        by_cases hm : (er.name ++ "_profile") ∈ resourceNames acc
        · rw [inferSequencesStep_element, if_pos hc, if_pos hm]
          exact hm
        · rw [inferSequencesStep_element, if_pos hc, if_neg hm]
          simp only [addResource]
          rw [show (Resource.sequence (createSequenceResource
            (er.name ++ "_profile") none)).resName
            = er.name ++ "_profile" from rfl]
          rw [setAssoc_of_not_mem _ _ _ hm]
          simp [resourceNames, keysOf]
      · exact ih _ pr hh er her hc

theorem inferSequencesFold_noop (l : List (String × Resource)) :
    ∀ (acc : PackageState),
    (∀ pr ∈ l, ∀ er : ElementResource, pr.2 = .element er →
      (er.sequences ≠ []
        ∧ er.sequences.any (fun s => s ∈ keysOf er.fields)) →
      (er.name ++ "_profile") ∈ resourceNames acc) →
    l.foldl inferSequencesStep acc = acc := by
  induction l with
  | nil => intro acc _; rfl
  | cons pr0 rest ih =>
      intro acc hall
      rw [List.foldl_cons]
      have hstep : inferSequencesStep acc pr0 = acc := by
        obtain ⟨nm, r⟩ := pr0
        cases r with
        | sequence sr => rfl
        | element er =>
            by_cases hc : er.sequences ≠ []
                ∧ er.sequences.any (fun s => s ∈ keysOf er.fields)
            · have hm := hall (nm, .element er) (List.mem_cons_self _ _)
                er rfl hc
              rw [inferSequencesStep_element, if_pos hc, if_pos hm]
            · rw [inferSequencesStep_element, if_neg hc]
      rw [hstep]
      exact ih acc (fun pr hpr => hall pr (List.mem_cons_of_mem _ hpr))

theorem inferSequencesFold_shape (l : List (String × Resource)) :
    ∀ (acc : PackageState),
    ∃ news : List (String × Resource),
    l.foldl inferSequencesStep acc = ⟨acc.resources ++ news⟩
    ∧ ∀ pr ∈ news, ∃ sr : SequenceResource, pr.2 = .sequence sr := by
  induction l with
  | nil =>
      intro acc
      exact ⟨[], by simp, by simp⟩
  | cons pr0 rest ih =>
      intro acc
      rw [List.foldl_cons]
      rcases inferSequencesStep_shape acc pr0 with hs | ⟨er, _, _, hs⟩
      · rw [hs]
        exact ih acc
      · rw [hs]
        obtain ⟨news, hfold, hseq⟩ := ih ⟨acc.resources
          ++ [(er.name ++ "_profile",
            .sequence (createSequenceResource (er.name ++ "_profile")
              none))]⟩
        refine ⟨(er.name ++ "_profile",
          .sequence (createSequenceResource (er.name ++ "_profile") none))
            :: news, ?_, ?_⟩
        · rw [hfold]
          simp
        · intro pr hpr
          rcases List.mem_cons.mp hpr with hh | hh
          · exact ⟨_, by rw [hh]⟩
          · exact hseq pr hh

theorem keys_mem_getAssoc {α : Type} (l : List (String × α)) (k : String)
    (h : k ∈ keysOf l) : ∃ v, getAssoc l k = some v := by
  induction l with
  | nil => simp [keysOf_nil] at h
  | cons hd tl ih =>
      obtain ⟨k₀, v₀⟩ := hd
      by_cases h0 : k₀ = k
      · exact ⟨v₀, by simp [getAssoc, h0]⟩
      · have h' : k ∈ keysOf tl := by
          rw [keysOf_cons] at h
          rcases List.mem_cons.mp h with hh | hh
          · exact absurd hh.symm h0
          · exact hh
        obtain ⟨v, hv⟩ := ih h'
        exact ⟨v, by simp [getAssoc, h0, hv]⟩

theorem foldlM_pure_noop {α β e : Type} (f : β → α → Except e β) :
    ∀ (l : List α) (b : β), (∀ a ∈ l, f b a = .ok b) →
    l.foldlM f b = .ok b := by
  intro l
  induction l with
  | nil => intro b _; rfl
  | cons a rest ih =>
      intro b hall
      rw [List.foldlM_cons, hall a (List.mem_cons_self _ _), exceptBind_ok]
      exact ih b (fun x hx => hall x (List.mem_cons_of_mem _ hx))

theorem addField_ok_shape (er er' : ElementResource) (fieldName : String)
    (h : er.addField fieldName = .ok er') :
    er'.component = er.component ∧ er'.name = er.name
    ∧ er'.instances = er.instances ∧ er'.sequences = er.sequences := by
  simp only [ElementResource.addField] at h
  split at h
  · exact absurd h (by simp)
  · exact ⟨by rw [← Except.ok.inj h], by rw [← Except.ok.inj h],
      by rw [← Except.ok.inj h], by rw [← Except.ok.inj h]⟩

theorem foldlM_addField_shape :
    ∀ (flds : List String) (base er : ElementResource),
    flds.foldlM ElementResource.addField base = .ok er →
    er.component = base.component ∧ er.name = base.name
    ∧ er.instances = base.instances ∧ er.sequences = base.sequences := by
  intro flds
  induction flds with
  | nil =>
      intro base er h
      simp [List.foldlM, exceptPure_eq] at h
      subst h
      exact ⟨rfl, rfl, rfl, rfl⟩
  | cons f rest ih =>
      intro base er h
      rw [List.foldlM_cons] at h
      cases hstep : base.addField f with
      | error e =>
          rw [hstep, exceptBind_error] at h
          exact absurd h (by simp)
      | ok er₁ =>
          rw [hstep, exceptBind_ok] at h
          obtain ⟨h1, h2, h3, h4⟩ := addField_ok_shape base er₁ f hstep
          obtain ⟨g1, g2, g3, g4⟩ := ih er₁ er h
          exact ⟨g1.trans h1, g2.trans h2, g3.trans h3, g4.trans h4⟩

theorem createElementResource_shape (comp : Component) (rn : String)
    (sel : Option (List String)) (seqs : List String)
    (er : ElementResource) (l : List String)
    (h : createElementResource comp rn sel seqs = .ok (er, l)) :
    er.component = comp ∧ er.name = rn ∧ er.instances = [] := by
  cases sel with
  | none =>
      simp only [createElementResource] at h
      split at h
      · cases hfl : (keysOf comp.attributes).foldlM
            ElementResource.addField
            { component := comp, name := rn,
              sequences := (comp.sequences ++ seqs).dedup,
              fields := [], instances := [] } with
        | error e =>
            rw [hfl, exceptBind_error] at h
            exact absurd h (by simp)
        | ok er₀ =>
            rw [hfl, exceptBind_ok, exceptPure_eq] at h
            obtain ⟨g1, g2, g3, _⟩ := foldlM_addField_shape _ _ er₀ hfl
            have her : er = er₀ := (congrArg Prod.fst (Except.ok.inj h)).symm
            rw [her]
            exact ⟨g1, g2, g3⟩
      · exact absurd h (by simp)
  | some sel₀ =>
      simp only [createElementResource] at h
      cases hfl : (REQUIRED_FIELDS.foldl
          (fun acc a => if a ∈ acc then acc else acc ++ [a]) sel₀).foldlM
          ElementResource.addField
          { component := comp, name := rn,
            sequences := (comp.sequences ++ seqs).dedup,
            fields := [], instances := [] } with
      | error e =>
          rw [hfl, exceptBind_error] at h
          exact absurd h (by simp)
      | ok er₀ =>
          rw [hfl, exceptBind_ok, exceptPure_eq] at h
          obtain ⟨g1, g2, g3, _⟩ := foldlM_addField_shape _ _ er₀ hfl
          have her : er = er₀ := (congrArg Prod.fst (Except.ok.inj h)).symm
          rw [her]
          exact ⟨g1, g2, g3⟩

theorem exceptMapM_append {e a b : Type} (f : a → Except e b) :
    ∀ (l1 : List a) (l2 : List a) (r1 r2 : List b),
    l1.mapM f = .ok r1 → l2.mapM f = .ok r2 →
    (l1 ++ l2).mapM f = .ok (r1 ++ r2) := by
  intro l1
  induction l1 with
  | nil =>
      intro l2 r1 r2 h1 h2
      simp only [List.mapM_nil, exceptPure_eq] at h1
      have : r1 = [] := (Except.ok.inj h1).symm
      subst this
      simpa using h2
  | cons x rest ih =>
      intro l2 r1 r2 h1 h2
      rw [List.mapM_cons] at h1
      cases hx : f x with
      | error err =>
          rw [hx, exceptBind_error] at h1
          exact absurd h1 (by simp)
      | ok y =>
          rw [hx, exceptBind_ok] at h1
          cases hrest : rest.mapM f with
          | error err =>
              rw [hrest, exceptBind_error] at h1
              exact absurd h1 (by simp)
          | ok ys =>
              rw [hrest, exceptBind_ok, exceptPure_eq] at h1
              have : r1 = y :: ys := (Except.ok.inj h1).symm
              subst this
              rw [List.cons_append, List.mapM_cons, hx, exceptBind_ok]
              rw [ih l2 ys r2 hrest h2, exceptBind_ok, exceptPure_eq,
                List.cons_append]

theorem busInstanceStep_inv (base : PackageState) (busFk : String)
    (st st' : PackageState × List String) (inst : Row)
    (hQ : busScanInv base st)
    (h : busInstanceStep busFk st inst = .ok st') :
    busScanInv base st' ∧ (∀ x ∈ st.2, x ∈ st'.2)
    ∧ (∀ v, rowGet inst busFk = some v → v ≠ "" → v ∈ st'.2) := by
  obtain ⟨hother, hnames, ⟨busEr, hbusE, hbusses⟩, hex⟩ := hQ
  simp only [busInstanceStep] at h
  split at h
  next v hv =>
      split at h
      · rename_i hc
        simp only [appendBusInstance, hbusE] at h
        cases haddI : busEr.addInstance (defaultBusInstance v) with
        | error e =>
            rw [haddI, exceptBind_error, exceptBind_error] at h
            exact absurd h (by simp)
        | ok bus' =>
            rw [haddI, exceptBind_ok, exceptPure_eq, exceptBind_ok,
              exceptPure_eq] at h
            have hst' : st' = (⟨setAssoc st.1.resources "bus"
                (.element bus')⟩, st.2 ++ [v]) := (Except.ok.inj h).symm
            subst hst'
            have hshape := addInstance_ok_shape busEr bus' _ haddI
            refine ⟨⟨?_, ?_, ⟨bus', ?_, ?_⟩, ?_⟩, ?_, ?_⟩
            · intro n hn
              rw [show (PackageState.mk (setAssoc st.1.resources "bus"
                  (.element bus'))).resources
                = setAssoc st.1.resources "bus" (.element bus') from rfl]
              rw [getAssoc_setAssoc_ne _ _ _ _ hn]
              exact hother n hn
            · have hmem : "bus" ∈ keysOf st.1.resources :=
                getAssoc_mem_keys _ _ _ hbusE
              show keysOf (setAssoc st.1.resources "bus" (.element bus'))
                = resourceNames base
              rw [keysOf_setAssoc_of_mem _ _ _ hmem]
              exact hnames
            · exact getAssoc_setAssoc_self _ _ _
            · rw [hshape]
              exact hbusses
            · simp only [busInstanceNames, getAssoc_setAssoc_self]
              simp only [busInstanceNames, hbusE] at hex
              have hone : [typeFilled busEr.component.name
                  (defaultBusInstance v)].mapM (fun inst =>
                    match rowGet inst "name" with
                    | some n => Except.ok n
                    | none => Except.error "KeyError: 'name'")
                  = Except.ok [v] := by
                have hget : rowGet (typeFilled busEr.component.name
                    (defaultBusInstance v)) "name" = some v := by
                  simp [typeFilled, defaultBusInstance, rowHas, rowGet,
                    getAssoc, rowSet, setAssoc]
                rw [List.mapM_cons, hget, exceptBind_ok, List.mapM_nil,
                  exceptPure_eq, exceptBind_ok, exceptPure_eq]
              have := exceptMapM_append _ busEr.instances
                [typeFilled busEr.component.name (defaultBusInstance v)]
                st.2 [v] hex hone
              rw [hshape]
              exact this
            · intro x hx
              exact List.mem_append_left _ hx
            · intro v' hv' _
              have hvv : v' = v := Option.some.inj (hv'.symm.trans hv).symm |>.symm
              subst hvv
              simp
      · rename_i hc
        rw [exceptPure_eq] at h
        have hst' : st' = st := (Except.ok.inj h).symm
        subst hst'
        refine ⟨⟨hother, hnames, ⟨busEr, hbusE, hbusses⟩, hex⟩,
          fun x hx => hx, ?_⟩
        intro v' hv' hne
        have hvv : v' = v := Option.some.inj (hv'.symm.trans hv).symm |>.symm
        subst hvv
        by_contra hmm
        exact hc ⟨hne, hmm⟩
  next hv =>
      rw [exceptPure_eq] at h
      have hst' : st' = st := (Except.ok.inj h).symm
      subst hst'
      exact ⟨⟨hother, hnames, ⟨busEr, hbusE, hbusses⟩, hex⟩,
        fun x hx => hx, fun v' hv' _ => absurd hv' (by rw [hv]; simp)⟩

theorem busInstanceStep_noop (busFk : String)
    (st : PackageState × List String) (inst : Row)
    (hall : ∀ v, rowGet inst busFk = some v → v ≠ "" → v ∈ st.2) :
    busInstanceStep busFk st inst = .ok st := by
  simp only [busInstanceStep]
  split
  next v hv =>
      rw [if_neg (show ¬ (v ≠ "" ∧ ¬ v ∈ st.2) from
        fun hc => hc.2 (hall v hv hc.1))]
      rfl
  next => rfl

theorem inferSequences_idem (p : PackageState) :
    inferSequences (inferSequences p) = inferSequences p := by
  obtain ⟨news, hfold, hseq⟩ := inferSequencesFold_shape p.resources p
  have hq : inferSequences p = ⟨p.resources ++ news⟩ := hfold
  rw [hq]
  show (p.resources ++ news).foldl inferSequencesStep ⟨p.resources ++ news⟩
    = ⟨p.resources ++ news⟩
  rw [List.foldl_append]
  have h1 : p.resources.foldl inferSequencesStep ⟨p.resources ++ news⟩
      = ⟨p.resources ++ news⟩ := by
    apply inferSequencesFold_noop
    intro pr hpr er her hc
    have hmem := inferSequencesFold_ensures p.resources p pr hpr er her hc
    rw [hfold] at hmem
    exact hmem
  rw [h1]
  apply inferSequencesFold_noop
  intro pr hpr er her _
  obtain ⟨sr, hsr⟩ := hseq pr hpr
  rw [hsr] at her
  exact Resource.noConfusion her

theorem busInstFold_inv (busFk : String) (base : PackageState) :
    ∀ (insts : List Row) (st st' : PackageState × List String),
    busScanInv base st →
    insts.foldlM (busInstanceStep busFk) st = .ok st' →
    busScanInv base st' ∧ (∀ x ∈ st.2, x ∈ st'.2)
    ∧ (∀ inst ∈ insts, ∀ v, rowGet inst busFk = some v → v ≠ "" →
        v ∈ st'.2) := by
  intro insts
  induction insts with
  | nil =>
      intro st st' hQ h
      rw [List.foldlM_nil, exceptPure_eq] at h
      have hst : st' = st := (Except.ok.inj h).symm
      subst hst
      exact ⟨hQ, fun x hx => hx, by simp⟩
  | cons inst rest ih =>
      intro st st' hQ h
      rw [List.foldlM_cons] at h
      cases hstep : busInstanceStep busFk st inst with
      | error e =>
          rw [hstep, exceptBind_error] at h
          exact absurd h (by simp)
      | ok st1 =>
          rw [hstep, exceptBind_ok] at h
          obtain ⟨hQ1, hmono1, hcov1⟩ :=
            busInstanceStep_inv base busFk st st1 inst hQ hstep
          obtain ⟨hQ', hmono', hcov'⟩ := ih st1 st' hQ1 h
          refine ⟨hQ', fun x hx => hmono' x (hmono1 x hx), ?_⟩
          intro i hi v hv hne
          rcases List.mem_cons.mp hi with hh | hh
          · subst hh
            exact hmono' v (hcov1 v hv hne)
          · exact hcov' i hh v hv hne

theorem busFkFold_inv (insts : List Row) (base : PackageState) :
    ∀ (busses : List String) (st st' : PackageState × List String),
    busScanInv base st →
    busses.foldlM (fun st' busFk =>
      insts.foldlM (busInstanceStep busFk) st') st = .ok st' →
    busScanInv base st' ∧ (∀ x ∈ st.2, x ∈ st'.2)
    ∧ (∀ busFk ∈ busses, ∀ inst ∈ insts, ∀ v,
        rowGet inst busFk = some v → v ≠ "" → v ∈ st'.2) := by
  intro busses
  induction busses with
  | nil =>
      intro st st' hQ h
      rw [List.foldlM_nil, exceptPure_eq] at h
      have hst : st' = st := (Except.ok.inj h).symm
      subst hst
      exact ⟨hQ, fun x hx => hx, by simp⟩
  | cons busFk rest ih =>
      intro st st' hQ h
      rw [List.foldlM_cons] at h
      cases hstep : insts.foldlM (busInstanceStep busFk) st with
      | error e =>
          rw [hstep, exceptBind_error] at h
          exact absurd h (by simp)
      | ok st1 =>
          rw [hstep, exceptBind_ok] at h
          obtain ⟨hQ1, hmono1, hcov1⟩ :=
            busInstFold_inv busFk base insts st st1 hQ hstep
          obtain ⟨hQ', hmono', hcov'⟩ := ih st1 st' hQ1 h
          refine ⟨hQ', fun x hx => hmono' x (hmono1 x hx), ?_⟩
          intro bf hbf inst hinst v hv hne
          rcases List.mem_cons.mp hbf with hh | hh
          · subst hh
            exact hmono' v (hcov1 inst hinst v hv hne)
          · exact hcov' bf hh inst hinst v hv hne

theorem inferBussesScanResource_inv (base : PackageState) (nm : String)
    (st st' : PackageState × List String)
    (hQ : busScanInv base st)
    (h : inferBussesScanResource st nm = .ok st') :
    busScanInv base st' ∧ (∀ x ∈ st.2, x ∈ st'.2)
    ∧ (nm ≠ "bus" → ∀ er : ElementResource,
        getAssoc base.resources nm = some (.element er) →
        ∀ busFk ∈ er.component.busses, ∀ inst ∈ er.instances,
        ∀ v, rowGet inst busFk = some v → v ≠ "" → v ∈ st'.2) := by
  simp only [inferBussesScanResource] at h
  split at h
  next er her =>
      by_cases hnm : nm = "bus"
      · subst hnm
        obtain ⟨hother, hnames, ⟨busEr, hbusE, hbusses⟩, hex⟩ := hQ
        have herb : er = busEr :=
          Resource.element.inj (Option.some.inj (her.symm.trans hbusE))
        have hb0 : er.component.busses = [] := by
          rw [herb]
          exact hbusses
        rw [hb0, List.foldlM_nil, exceptPure_eq] at h
        have hst : st' = st := (Except.ok.inj h).symm
        subst hst
        exact ⟨⟨hother, hnames, ⟨busEr, hbusE, hbusses⟩, hex⟩,
          fun x hx => hx, fun hne => absurd rfl hne⟩
      · obtain ⟨hQ', hmono, hcov⟩ :=
          busFkFold_inv er.instances base er.component.busses st st' hQ h
        refine ⟨hQ', hmono, ?_⟩
        intro _ er0 hbase busFk hbf inst hinst v hv hne
        have heq : getAssoc st.1.resources nm = getAssoc base.resources nm :=
          hQ.1 nm hnm
        have her0 : er0 = er :=
          Resource.element.inj (Option.some.inj
            (hbase.symm.trans (heq.symm.trans her)))
        subst her0
        exact hcov busFk hbf inst hinst v hv hne
  next hdef =>
      rw [exceptPure_eq] at h
      have hst : st' = st := (Except.ok.inj h).symm
      subst hst
      refine ⟨hQ, fun x hx => hx, ?_⟩
      intro hnm er0 hbase busFk hbf inst hinst v hv hne
      have heq := hQ.1 nm hnm
      exact absurd (heq.trans hbase) (fun hc => hdef er0 hc)

theorem busScanFold_inv (base : PackageState) :
    ∀ (names : List String) (st st' : PackageState × List String),
    busScanInv base st →
    names.foldlM inferBussesScanResource st = .ok st' →
    busScanInv base st' ∧ (∀ x ∈ st.2, x ∈ st'.2)
    ∧ (∀ nm ∈ names, nm ≠ "bus" → ∀ er : ElementResource,
        getAssoc base.resources nm = some (.element er) →
        ∀ busFk ∈ er.component.busses, ∀ inst ∈ er.instances,
        ∀ v, rowGet inst busFk = some v → v ≠ "" → v ∈ st'.2) := by
  intro names
  induction names with
  | nil =>
      intro st st' hQ h
      rw [List.foldlM_nil, exceptPure_eq] at h
      have hst : st' = st := (Except.ok.inj h).symm
      subst hst
      exact ⟨hQ, fun x hx => hx, by simp⟩
  | cons nm rest ih =>
      intro st st' hQ h
      rw [List.foldlM_cons] at h
      cases hstep : inferBussesScanResource st nm with
      | error e =>
          rw [hstep, exceptBind_error] at h
          exact absurd h (by simp)
      | ok st1 =>
          rw [hstep, exceptBind_ok] at h
          obtain ⟨hQ1, hmono1, hcov1⟩ :=
            inferBussesScanResource_inv base nm st st1 hQ hstep
          obtain ⟨hQ', hmono', hcov'⟩ := ih st1 st' hQ1 h
          refine ⟨hQ', fun x hx => hmono' x (hmono1 x hx), ?_⟩
          intro n hn hne er hbase busFk hbf inst hinst v hv hvne
          rcases List.mem_cons.mp hn with hh | hh
          · subst hh
            exact hmono' v (hcov1 hne er hbase busFk hbf inst hinst v hv hvne)
          · exact hcov' n hh hne er hbase busFk hbf inst hinst v hv hvne

theorem busInstFold_noop (busFk : String) (insts : List Row)
    (st : PackageState × List String)
    (hall : ∀ inst ∈ insts, ∀ v, rowGet inst busFk = some v → v ≠ "" →
      v ∈ st.2) :
    insts.foldlM (busInstanceStep busFk) st = .ok st :=
  foldlM_pure_noop _ insts st (fun inst hi =>
    busInstanceStep_noop busFk st inst (hall inst hi))

theorem busFkFold_noop (insts : List Row) (busses : List String)
    (st : PackageState × List String)
    (hall : ∀ busFk ∈ busses, ∀ inst ∈ insts, ∀ v,
      rowGet inst busFk = some v → v ≠ "" → v ∈ st.2) :
    busses.foldlM (fun st' busFk =>
      insts.foldlM (busInstanceStep busFk) st') st = .ok st :=
  foldlM_pure_noop _ busses st (fun busFk hb =>
    busInstFold_noop busFk insts st (hall busFk hb))

theorem inferBussesScanResource_noop (st : PackageState × List String)
    (nm : String)
    (hbus : nm = "bus" → ∀ er : ElementResource,
      getAssoc st.1.resources nm = some (.element er) →
      er.component.busses = [])
    (hcov : nm ≠ "bus" → ∀ er : ElementResource,
      getAssoc st.1.resources nm = some (.element er) →
      ∀ busFk ∈ er.component.busses, ∀ inst ∈ er.instances,
      ∀ v, rowGet inst busFk = some v → v ≠ "" → v ∈ st.2) :
    inferBussesScanResource st nm = .ok st := by
  simp only [inferBussesScanResource]
  split
  next er her =>
      by_cases hnm : nm = "bus"
      · rw [hbus hnm er her, List.foldlM_nil]
        rfl
      · exact busFkFold_noop er.instances er.component.busses st
          (hcov hnm er her)
  next => rfl

theorem busScanFold_noop (names : List String)
    (st : PackageState × List String)
    (hbus : ∀ er : ElementResource,
      getAssoc st.1.resources "bus" = some (.element er) →
      er.component.busses = [])
    (hcov : ∀ nm ∈ names, nm ≠ "bus" → ∀ er : ElementResource,
      getAssoc st.1.resources nm = some (.element er) →
      ∀ busFk ∈ er.component.busses, ∀ inst ∈ er.instances,
      ∀ v, rowGet inst busFk = some v → v ≠ "" → v ∈ st.2) :
    names.foldlM inferBussesScanResource st = .ok st :=
  foldlM_pure_noop _ names st (fun nm hnm =>
    inferBussesScanResource_noop st nm
      (fun hnmeq er her => hbus er (hnmeq ▸ her))
      (hcov nm hnm))

theorem ensureBus_busEntry (busComp : Component) (p p1 : PackageState)
    (hcomp : busComp.busses = [])
    (hbusElem : ∀ er : ElementResource,
      getAssoc p.resources "bus" = some (.element er) →
      er.component.busses = [])
    (hbusSeq : ∀ sr : SequenceResource,
      ¬ getAssoc p.resources "bus" = some (.sequence sr))
    (h : ensureBusResource busComp p = .ok p1) :
    ∃ busEr : ElementResource,
      getAssoc p1.resources "bus" = some (.element busEr)
      ∧ busEr.component.busses = [] := by
  simp only [ensureBusResource] at h
  split at h
  · rename_i hmem
    have hp : p1 = p := (Except.ok.inj h).symm
    subst hp
    obtain ⟨r, hr⟩ := keys_mem_getAssoc _ _ hmem
    cases r with
    | element er => exact ⟨er, hr, hbusElem er hr⟩
    | sequence sr => exact absurd hr (hbusSeq sr)
  · split at h
    · rename_i bus l hcre
      have hp : p1 = addResource p (.element bus) := (Except.ok.inj h).symm
      subst hp
      obtain ⟨hc1, hc2, _⟩ :=
        createElementResource_shape busComp "bus" none [] bus l hcre
      refine ⟨bus, ?_, by rw [hc1]; exact hcomp⟩
      show getAssoc (setAssoc p.resources (Resource.element bus).resName
        (.element bus)) "bus" = _
      rw [show (Resource.element bus).resName = bus.name from rfl, hc2]
      exact getAssoc_setAssoc_self _ _ _
    · exact absurd h (by simp)

theorem inferBusses_idem (busComp : Component) (p p' : PackageState)
    (hcomp : busComp.busses = [])
    (hbusElem : ∀ er : ElementResource,
      getAssoc p.resources "bus" = some (.element er) →
      er.component.busses = [])
    (hbusSeq : ∀ sr : SequenceResource,
      ¬ getAssoc p.resources "bus" = some (.sequence sr))
    (h : inferBusses busComp p = .ok p') :
    inferBusses busComp p' = .ok p' := by
  simp only [inferBusses] at h
  split at h
  next e he => exact absurd h (by simp)
  next p1 hp1 =>
  split at h
  next e he => exact absurd h (by simp)
  next existing hex =>
  split at h
  next e he => exact absurd h (by simp)
  next stF hfoldF =>
  have hp' : p' = stF.1 := (Except.ok.inj h).symm
  obtain ⟨busEr1, hbusE1, hbusses1⟩ :=
    ensureBus_busEntry busComp p p1 hcomp hbusElem hbusSeq hp1
  have hQ0 : busScanInv p1 (p1, existing) :=
    ⟨fun _ _ => rfl, rfl, ⟨busEr1, hbusE1, hbusses1⟩, hex⟩
  obtain ⟨⟨hotherF, hnamesF, ⟨busErF, hbusEF, hbussesF⟩, hexF⟩, _, hcovF⟩ :=
    busScanFold_inv p1 (resourceNames p1) (p1, existing) stF hQ0 hfoldF
  subst hp'
  have hmem2 : "bus" ∈ resourceNames stF.1 := by
    rw [show resourceNames stF.1 = keysOf stF.1.resources from rfl]
    exact getAssoc_mem_keys _ _ _ hbusEF
  have hens2 : ensureBusResource busComp stF.1 = .ok stF.1 := by
    simp only [ensureBusResource]
    rw [if_pos hmem2]
  have hfold2 : (resourceNames stF.1).foldlM inferBussesScanResource
      (stF.1, stF.2) = .ok (stF.1, stF.2) := by
    apply busScanFold_noop
    · intro er her
      have herb : er = busErF :=
        Resource.element.inj (Option.some.inj (her.symm.trans hbusEF))
      rw [herb]
      exact hbussesF
    · intro nm hnm hne er her busFk hbf inst hinst v hv hvne
      have heq : getAssoc stF.1.resources nm = getAssoc p1.resources nm :=
        hotherF nm hne
      have hnm1 : nm ∈ resourceNames p1 := by
        rw [show resourceNames p1 = resourceNames stF.1 from hnamesF.symm]
        exact hnm
      exact hcovF nm hnm1 hne er (heq.symm.trans her) busFk hbf inst hinst
        v hv hvne
  simp only [inferBusses, hens2, hexF, hfold2]

/-- C8: both inference passes of `PackageBuilder` are idempotent.  A second
run of `infer_sequences_from_resources` returns the resource map unchanged:
every companion `"<name>_profile"` resource demanded by an element resource
already exists after the first run, and the resources added by the first
run are sequence resources, which the pass never acts on.  A second run of
`infer_busses_from_resources` returns the same state as the first run
(given that the bus component declares no bus-link attributes of its own,
as `bus.yaml` does, so the synthesized or pre-existing `"bus"` resource is
never itself scanned for bus links): every truthy bus name referenced by
any instance is already a `"bus"` instance after the first run, so no
instance is appended and the `"bus"` resource is not re-created. -/
theorem claim_C8 :
    (∀ p : PackageState,
      inferSequences (inferSequences p) = inferSequences p)
    ∧ (∀ (busComp : Component) (p p' : PackageState),
        busComp.busses = [] →
        (∀ er : ElementResource,
          getAssoc p.resources "bus" = some (.element er) →
          er.component.busses = []) →
        (∀ sr : SequenceResource,
          ¬ getAssoc p.resources "bus" = some (.sequence sr)) →
        inferBusses busComp p = .ok p' →
        inferBusses busComp p' = .ok p') :=
  ⟨inferSequences_idem, inferBusses_idem⟩

set_option maxRecDepth 2000000 in
/-- Witness for C8 at the concrete package `pDemoC8`: the sequence pass is
idempotent there, and feeding the output `pDemoC8'` of the first bus pass
into a second bus pass reproduces it exactly. -/
theorem claim_C8_witness :
    inferSequences (inferSequences pDemoC8) = inferSequences pDemoC8
    ∧ inferBusses busComp0 pDemoC8' = .ok pDemoC8' :=
  ⟨claim_C8.1 pDemoC8,
   claim_C8.2 busComp0 pDemoC8 pDemoC8' (by decide)
     (fun er her => by
       rw [show getAssoc pDemoC8.resources "bus" = none from rfl] at her
       exact Option.noConfusion her)
     (fun sr hsr => by
       rw [show getAssoc pDemoC8.resources "bus" = none from rfl] at hsr
       exact Option.noConfusion hsr)
     rfl⟩

theorem getAssoc_mem {α : Type} (l : List (String × α)) (k : String) (v : α)
    (h : getAssoc l k = some v) : (k, v) ∈ l := by
  induction l with
  | nil => simp [getAssoc] at h
  | cons hd tl ih =>
      obtain ⟨k₀, v₀⟩ := hd
      simp only [getAssoc] at h
      split at h
      next heq =>
          have hv : v₀ = v := Option.some.inj h
          exact List.mem_cons.mpr (Or.inl (by rw [heq, hv]))
      next hne => exact List.mem_cons.mpr (Or.inr (ih h))

theorem getAssoc_eq_none {α : Type} (l : List (String × α)) (k : String)
    (h : ¬ k ∈ keysOf l) : getAssoc l k = none := by
  cases hg : getAssoc l k with
  | none => rfl
  | some v => exact absurd (getAssoc_mem_keys l k v hg) h

theorem setAssoc_mem {α : Type} (l : List (String × α)) (k : String)
    (v : α) : ∀ pr ∈ setAssoc l k v, pr ∈ l ∨ pr = (k, v) := by
  induction l with
  | nil =>
      intro pr hpr
      simp [setAssoc] at hpr
      exact Or.inr hpr
  | cons hd tl ih =>
      intro pr hpr
      obtain ⟨k₀, v₀⟩ := hd
      simp only [setAssoc] at hpr
      split at hpr
      · rcases List.mem_cons.mp hpr with hh | hh
        · exact Or.inr hh
        · exact Or.inl (List.mem_cons.mpr (Or.inr hh))
      · rcases List.mem_cons.mp hpr with hh | hh
        · exact Or.inl (List.mem_cons.mpr (Or.inl hh))
        · rcases ih pr hh with h1 | h2
          · exact Or.inl (List.mem_cons.mpr (Or.inr h1))
          · exact Or.inr h2

theorem keyNamed_addResource (p : PackageState) (r : Resource)
    (h : keyNamed p) : keyNamed (addResource p r) := by
  intro pr hpr
  rcases setAssoc_mem p.resources r.resName r pr hpr with hh | hh
  · exact h pr hh
  · rw [hh]

theorem keyNamed_getAssoc (p : PackageState) (k : String) (r : Resource)
    (hkn : keyNamed p) (h : getAssoc p.resources k = some r) :
    r.resName = k :=
  hkn (k, r) (getAssoc_mem _ _ _ h)

theorem strAppend_right_cancel {a b s : String} (h : a ++ s = b ++ s) :
    a = b := by
  have hd := congrArg String.data h
  simp only [String.data_append] at hd
  exact String.ext (List.append_cancel_right hd)

theorem sequenceFKs_refResource (er : ElementResource) (fk : ForeignKey)
    (h : fk ∈ sequenceFKs er) : fk.refResource = er.name ++ "_profile" := by
  simp only [sequenceFKs, List.mem_filter] at h
  obtain ⟨hmem, hne⟩ := h
  simp only [decide_not, Bool.not_eq_eq_eq_not, Bool.not_true,
    decide_eq_false_iff_not] at hne
  simp only [ElementResource.foreignKeys, List.mem_append,
    List.mem_map] at hmem
  rcases hmem with ⟨bus, _, hfk⟩ | ⟨seq, _, hfk⟩
  · exact absurd (by rw [← hfk] : fk.refResource = "bus") hne
  · rw [← hfk]

theorem createSequenceResource_timeindex (cn : String) (t : List Nat)
    (ht : t ≠ []) : (createSequenceResource cn (some t)).timeindex = t := by
  cases t with
  | nil => exact absurd rfl ht
  | cons a l => rfl

theorem addInstanceE_ok_shape (sr sr' : SequenceResource) (v : String)
    (ts : List Int) (h : sr.addInstanceE v ts = .ok sr') :
    sr'.name = sr.name ∧ sr'.timeindex = sr.timeindex
    ∧ sr'.instances = setAssoc sr.instances v ts := by
  simp only [SequenceResource.addInstanceE] at h
  split at h
  next sr₁ hm =>
      have hs : sr' = sr₁ := (Except.ok.inj h).symm
      subst hs
      simp only [SequenceResource.addInstance] at hm
      split at hm
      · exact absurd (congrArg Prod.snd hm) (by simp)
      · injection hm with h1 h2
        exact ⟨by rw [← h1], by rw [← h1], by rw [← h1]⟩
  next p e hm => exact absurd h (by simp)

theorem keysOf_map_pair (l : List String) (f : String → List Int) :
    keysOf (l.map (fun d => (d, f d))) = l := by
  induction l with
  | nil => rfl
  | cons a t ih => simp only [keysOf, List.map_cons] at ih ⊢; rw [ih]

theorem defaultProfileColStep_spec (t : List Nat) (cn : String)
    (acc acc' : PackageState) (v : String)
    (hkn : keyNamed acc)
    (h : defaultProfileColStep t cn acc v = .ok acc') :
    keyNamed acc'
    ∧ (∀ n, n ≠ cn → getAssoc acc'.resources n = getAssoc acc.resources n)
    ∧ ∃ sr' : SequenceResource,
        getAssoc acc'.resources cn = some (.sequence sr')
        ∧ (¬ cn ∈ resourceNames acc → t ≠ [] →
            sr'.timeindex = t ∧ sr'.instances = [(v, zeros t.length)])
        ∧ (∀ sr : SequenceResource,
            getAssoc acc.resources cn = some (.sequence sr) →
            sr'.timeindex = sr.timeindex
            ∧ sr'.instances = setAssoc sr.instances v (zeros t.length)) := by
  simp only [defaultProfileColStep] at h
  by_cases hc : cn ∈ resourceNames acc
  · rw [if_pos hc] at h
    split at h
    next sr hsr =>
        cases hai : sr.addInstanceE v (zeros t.length) with
        | error e =>
            rw [hai, exceptBind_error] at h
            exact absurd h (by simp)
        | ok sr' =>
            rw [hai, exceptBind_ok, exceptPure_eq] at h
            have hacc : acc' = addResource acc (.sequence sr') :=
              (Except.ok.inj h).symm
            subst hacc
            obtain ⟨hn, hti, hinst⟩ := addInstanceE_ok_shape sr sr' v _ hai
            have hsn : sr.name = cn := keyNamed_getAssoc acc cn _ hkn hsr
            have hkey : (Resource.sequence sr').resName = cn := by
              rw [show (Resource.sequence sr').resName = sr'.name from rfl,
                hn, hsn]
            refine ⟨keyNamed_addResource _ _ hkn, ?_, sr', ?_, ?_, ?_⟩
            · intro n hne
              show getAssoc (setAssoc acc.resources
                (Resource.sequence sr').resName (.sequence sr')) n = _
              rw [hkey]
              exact getAssoc_setAssoc_ne _ _ _ _ hne
            · show getAssoc (setAssoc acc.resources
                (Resource.sequence sr').resName (.sequence sr')) cn = _
              rw [hkey]
              exact getAssoc_setAssoc_self _ _ _
            · intro hmiss
              exact absurd hc hmiss
            · intro sr₀ hsr₀
              have hs : sr₀ = sr :=
                Resource.sequence.inj (Option.some.inj (hsr₀.symm.trans hsr))
              subst hs
              exact ⟨hti, hinst⟩
    next a b hsr => exact absurd h (by simp)
    next hsr => exact absurd h (by simp)
  · rw [if_neg hc] at h
    have hget : getAssoc (addResource acc
        (.sequence (createSequenceResource cn (some t)))).resources cn
        = some (.sequence (createSequenceResource cn (some t))) := by
      show getAssoc (setAssoc acc.resources _ _) cn = _
      exact getAssoc_setAssoc_self _ _ _
    split at h
    next sr hsr =>
        have hs : sr = createSequenceResource cn (some t) :=
          Resource.sequence.inj (Option.some.inj (hsr.symm.trans hget))
        subst hs
        cases hai : (createSequenceResource cn (some t)).addInstanceE v
            (zeros t.length) with
        | error e =>
            rw [hai, exceptBind_error] at h
            exact absurd h (by simp)
        | ok sr' =>
            rw [hai, exceptBind_ok, exceptPure_eq] at h
            have hacc : acc' = addResource (addResource acc
                (.sequence (createSequenceResource cn (some t))))
                (.sequence sr') := (Except.ok.inj h).symm
            subst hacc
            obtain ⟨hn, hti, hinst⟩ := addInstanceE_ok_shape _ sr' v _ hai
            have hkey : (Resource.sequence sr').resName = cn := by
              rw [show (Resource.sequence sr').resName = sr'.name from rfl,
                hn]
              rfl
            have hkn1 : keyNamed (addResource acc
                (.sequence (createSequenceResource cn (some t)))) :=
              keyNamed_addResource _ _ hkn
            have hkey0 : (Resource.sequence
                (createSequenceResource cn (some t))).resName = cn := rfl
            refine ⟨keyNamed_addResource _ _ hkn1, ?_, sr', ?_, ?_, ?_⟩
            · intro n hne
              simp only [addResource]
              rw [hkey, hkey0, getAssoc_setAssoc_ne _ _ _ _ hne,
                getAssoc_setAssoc_ne _ _ _ _ hne]
            · simp only [addResource]
              rw [hkey]
              exact getAssoc_setAssoc_self _ _ _
            · intro _ ht
              refine ⟨by rw [hti]; exact createSequenceResource_timeindex cn t ht, ?_⟩
              rw [hinst]
              rfl
            · intro sr₀ hsr₀
              exact absurd (getAssoc_mem_keys _ _ _ hsr₀) hc
    next a b hsr =>
        exact absurd h (by simp)
    next hsr =>
        exact absurd h (by simp)

theorem defaultProfileFold_frame (t : List Nat) (cn : String) :
    ∀ (vs : List String) (acc acc' : PackageState),
    keyNamed acc →
    vs.foldlM (defaultProfileColStep t cn) acc = .ok acc' →
    keyNamed acc'
    ∧ ∀ n, n ≠ cn →
      getAssoc acc'.resources n = getAssoc acc.resources n := by
  intro vs
  induction vs with
  | nil =>
      intro acc acc' hkn h
      rw [List.foldlM_nil, exceptPure_eq] at h
      have hs : acc' = acc := (Except.ok.inj h).symm
      subst hs
      exact ⟨hkn, fun n _ => rfl⟩
  | cons v rest ih =>
      intro acc acc' hkn h
      rw [List.foldlM_cons] at h
      cases hstep : defaultProfileColStep t cn acc v with
      | error e =>
          rw [hstep, exceptBind_error] at h
          exact absurd h (by simp)
      | ok acc1 =>
          rw [hstep, exceptBind_ok] at h
          obtain ⟨hkn1, hframe1, _⟩ :=
            defaultProfileColStep_spec t cn acc acc1 v hkn hstep
          obtain ⟨hkn', hframe'⟩ := ih acc1 acc' hkn1 h
          exact ⟨hkn', fun n hne => (hframe' n hne).trans (hframe1 n hne)⟩

theorem defaultProfileFold_add (t : List Nat) (cn : String) :
    ∀ (vs : List String) (acc acc' : PackageState) (sr : SequenceResource)
      (done : List String),
    keyNamed acc →
    getAssoc acc.resources cn = some (.sequence sr) →
    sr.timeindex = t →
    sr.instances = done.map (fun d => (d, zeros t.length)) →
    (∀ v ∈ vs, ¬ v ∈ done) →
    vs.Nodup →
    vs.foldlM (defaultProfileColStep t cn) acc = .ok acc' →
    ∃ sr' : SequenceResource,
      getAssoc acc'.resources cn = some (.sequence sr')
      ∧ sr'.timeindex = t
      ∧ sr'.instances = (done ++ vs).map (fun d => (d, zeros t.length)) := by
  intro vs
  induction vs with
  | nil =>
      intro acc acc' sr done hkn hsr hti hinst _ _ h
      rw [List.foldlM_nil, exceptPure_eq] at h
      have hs : acc' = acc := (Except.ok.inj h).symm
      subst hs
      exact ⟨sr, hsr, hti, by rw [hinst, List.append_nil]⟩
  | cons v rest ih =>
      intro acc acc' sr done hkn hsr hti hinst hnotdone hnd h
      rw [List.foldlM_cons] at h
      cases hstep : defaultProfileColStep t cn acc v with
      | error e =>
          rw [hstep, exceptBind_error] at h
          exact absurd h (by simp)
      | ok acc1 =>
          rw [hstep, exceptBind_ok] at h
          obtain ⟨hkn1, _, sr1, hget1, _, haddcl⟩ :=
            defaultProfileColStep_spec t cn acc acc1 v hkn hstep
          obtain ⟨hti1, hinst1⟩ := haddcl sr hsr
          have hkeys : ¬ v ∈ keysOf sr.instances := by
            rw [hinst, keysOf_map_pair done (fun _ => zeros t.length)]
            exact hnotdone v (List.mem_cons_self _ _)
          have hinst1' : sr1.instances
              = (done ++ [v]).map (fun d => (d, zeros t.length)) := by
            rw [hinst1, setAssoc_of_not_mem _ _ _ hkeys, hinst,
              List.map_append]
            rfl
          have hrest : ∀ v' ∈ rest, ¬ v' ∈ done ++ [v] := by
            intro v' hv' hc
            rcases List.mem_append.mp hc with hh | hh
            · exact hnotdone v' (List.mem_cons_of_mem _ hv') hh
            · have : v' = v := by simpa using hh
              subst this
              exact (List.nodup_cons.mp hnd).1 hv'
          obtain ⟨srF, hgetF, htiF, hinstF⟩ := ih acc1 acc' sr1 (done ++ [v])
            hkn1 hget1 (hti1.trans hti) hinst1' hrest
            (List.nodup_cons.mp hnd).2 h
          refine ⟨srF, hgetF, htiF, ?_⟩
          rw [hinstF]
          simp

theorem addDefaultProfilesStep_frame (t : List Nat)
    (acc acc' : PackageState) (pr : String × Resource)
    (hkn : keyNamed acc)
    (h : addDefaultProfilesStep t acc pr = .ok acc') :
    keyNamed acc'
    ∧ ∀ n, (∀ er2 : ElementResource, pr.2 = .element er2 →
        n ≠ er2.name ++ "_profile") →
      getAssoc acc'.resources n = getAssoc acc.resources n := by
  obtain ⟨nm2, r2⟩ := pr
  cases r2 with
  | sequence sr =>
      rw [show addDefaultProfilesStep t acc (nm2, .sequence sr)
        = pure acc from rfl, exceptPure_eq] at h
      have hs : acc' = acc := (Except.ok.inj h).symm
      subst hs
      exact ⟨hkn, fun n _ => rfl⟩
  | element er2 =>
      simp only [addDefaultProfilesStep] at h
      split at h
      next hlast =>
          rw [exceptPure_eq] at h
          have hs : acc' = acc := (Except.ok.inj h).symm
          subst hs
          exact ⟨hkn, fun n _ => rfl⟩
      next fkLast hlast =>
          split at h
          · have hfr : fkLast.refResource = er2.name ++ "_profile" :=
              sequenceFKs_refResource er2 fkLast
                (List.mem_of_mem_getLast? hlast)
            obtain ⟨hkn', hframe⟩ :=
              defaultProfileFold_frame t fkLast.refResource _ acc acc' hkn h
            refine ⟨hkn', ?_⟩
            intro n hcond
            refine hframe n ?_
            rw [hfr]
            exact hcond er2 rfl
          · rw [exceptPure_eq] at h
            have hs : acc' = acc := (Except.ok.inj h).symm
            subst hs
            exact ⟨hkn, fun n _ => rfl⟩

theorem addDefaultProfilesFold_frame (t : List Nat) :
    ∀ (l : List (String × Resource)) (acc acc' : PackageState),
    keyNamed acc →
    l.foldlM (addDefaultProfilesStep t) acc = .ok acc' →
    keyNamed acc'
    ∧ ∀ n, (∀ pr ∈ l, ∀ er2 : ElementResource, pr.2 = .element er2 →
        n ≠ er2.name ++ "_profile") →
      getAssoc acc'.resources n = getAssoc acc.resources n := by
  intro l
  induction l with
  | nil =>
      intro acc acc' hkn h
      rw [List.foldlM_nil, exceptPure_eq] at h
      have hs : acc' = acc := (Except.ok.inj h).symm
      subst hs
      exact ⟨hkn, fun n _ => rfl⟩
  | cons pr rest ih =>
      intro acc acc' hkn h
      rw [List.foldlM_cons] at h
      cases hstep : addDefaultProfilesStep t acc pr with
      | error e =>
          rw [hstep, exceptBind_error] at h
          exact absurd h (by simp)
      | ok acc1 =>
          rw [hstep, exceptBind_ok] at h
          obtain ⟨hkn1, hframe1⟩ :=
            addDefaultProfilesStep_frame t acc acc1 pr hkn hstep
          obtain ⟨hkn', hframe'⟩ := ih acc1 acc' hkn1 h
          refine ⟨hkn', ?_⟩
          intro n hcond
          refine (hframe' n ?_).trans (hframe1 n ?_)
          · intro pr' hpr' er2 her2
            exact hcond pr' (List.mem_cons_of_mem _ hpr') er2 her2
          · intro er2 her2
            exact hcond pr (List.mem_cons_self _ _) er2 her2

theorem addDefaultProfiles_creates (t : List Nat) (p p' : PackageState)
    (nm : String) (er : ElementResource)
    (ht : t ≠ [])
    (hkn : keyNamed p)
    (hnodup : (keysOf p.resources).Nodup)
    (hget : getAssoc p.resources nm = some (.element er))
    (hvals : referencedSequenceValues er ≠ [])
    (hmiss : ¬ (er.name ++ "_profile") ∈ resourceNames p)
    (h : addDefaultProfiles t p = .ok p') :
    ∃ sr : SequenceResource,
      getAssoc p'.resources (er.name ++ "_profile") = some (.sequence sr)
      ∧ sr.timeindex = t
      ∧ sr.instances = (sortStrings (referencedSequenceValues er)).map
          (fun v => (v, zeros t.length)) := by
  have hm : (nm, Resource.element er) ∈ p.resources :=
    getAssoc_mem _ _ _ hget
  have hern : er.name = nm := hkn (nm, .element er) hm
  obtain ⟨l1, l2, hsplit⟩ := List.append_of_mem hm
  have hkeys : keysOf p.resources = keysOf l1 ++ nm :: keysOf l2 := by
    rw [hsplit]
    simp [keysOf]
  rw [hkeys] at hnodup
  obtain ⟨hnd1, hnd2, hdisj⟩ := List.nodup_append.mp hnodup
  have hnm1 : ¬ nm ∈ keysOf l1 := by
    intro hc
    exact hdisj hc (List.mem_cons_self _ _)
  have hnm2 : ¬ nm ∈ keysOf l2 := (List.nodup_cons.mp hnd2).1
  have hsidecond : ∀ (lx : List (String × Resource)),
      (∀ pr ∈ lx, pr ∈ p.resources) → ¬ nm ∈ keysOf lx →
      ∀ pr ∈ lx, ∀ er2 : ElementResource, pr.2 = .element er2 →
        er.name ++ "_profile" ≠ er2.name ++ "_profile" := by
    intro lx hsub hnmx pr hpr er2 her2 hc
    have hname : er2.name = pr.1 := by
      have := hkn pr (hsub pr hpr)
      rw [her2] at this
      exact this
    have hkmem : pr.1 ∈ keysOf lx := List.mem_map_of_mem Prod.fst hpr
    have : er.name = er2.name := strAppend_right_cancel hc
    rw [hern] at this
    rw [← hname, ← this] at hkmem
    exact hnmx hkmem
  simp only [addDefaultProfiles] at h
  rw [hsplit, List.foldlM_append] at h
  cases h1 : l1.foldlM (addDefaultProfilesStep t) p with
  | error e =>
      rw [h1, exceptBind_error] at h
      exact absurd h (by simp)
  | ok acc1 =>
      rw [h1, exceptBind_ok, List.foldlM_cons] at h
      obtain ⟨hkn1, hframe1⟩ := addDefaultProfilesFold_frame t l1 p acc1 hkn h1
      have hcn1 : getAssoc acc1.resources (er.name ++ "_profile")
          = getAssoc p.resources (er.name ++ "_profile") := by
        refine hframe1 _ ?_
        intro pr hpr er2 her2
        exact hsidecond l1
          (fun pr' hpr' => by rw [hsplit]; exact List.mem_append_left _ hpr')
          hnm1 pr hpr er2 her2
      have hnone : getAssoc p.resources (er.name ++ "_profile") = none :=
        getAssoc_eq_none _ _ hmiss
      have hmiss1 : ¬ (er.name ++ "_profile") ∈ resourceNames acc1 := by
        intro hc
        obtain ⟨v, hv⟩ := keys_mem_getAssoc _ _ hc
        exact Option.noConfusion ((hcn1.trans hnone).symm.trans hv)
      cases h2 : addDefaultProfilesStep t acc1 (nm, .element er) with
      | error e =>
          rw [h2, exceptBind_error] at h
          exact absurd h (by simp)
      | ok acc2 =>
          rw [h2, exceptBind_ok] at h
          have hseqne : sequenceFKs er ≠ [] := by
            intro hc
            apply hvals
            simp [referencedSequenceValues, hc]
          simp only [addDefaultProfilesStep] at h2
          split at h2
          next hlast =>
              rw [List.getLast?_eq_getLast _ hseqne] at hlast
              exact Option.noConfusion hlast
          next fkLast hlast =>
              have hfr : fkLast.refResource = er.name ++ "_profile" :=
                sequenceFKs_refResource er fkLast
                  (List.mem_of_mem_getLast? hlast)
              rw [if_pos hvals, hfr] at h2
              have hnds : (sortStrings (referencedSequenceValues er)).Nodup := by
                refine (List.perm_insertionSort _ _).nodup_iff.mpr ?_
                simp only [referencedSequenceValues]
                exact List.nodup_dedup _
              have hsne : sortStrings (referencedSequenceValues er) ≠ [] := by
                intro hc
                have hlen := (List.perm_insertionSort
                  (fun a b => strLe a b = true)
                  (referencedSequenceValues er)).length_eq
                rw [show sortStrings (referencedSequenceValues er)
                  = (referencedSequenceValues er).insertionSort
                    (fun a b => strLe a b = true) from rfl] at hc
                rw [hc] at hlen
                exact hvals (List.eq_nil_of_length_eq_zero hlen.symm)
              obtain ⟨v0, vrest, hvs⟩ := List.exists_cons_of_ne_nil hsne
              rw [hvs, List.foldlM_cons] at h2
              cases h3 : defaultProfileColStep t (er.name ++ "_profile")
                  acc1 v0 with
              | error e =>
                  rw [h3, exceptBind_error] at h2
                  exact absurd h2 (by simp)
              | ok accA =>
                  rw [h3, exceptBind_ok] at h2
                  obtain ⟨hknA, _, srA, hgetA, hcreate, _⟩ :=
                    defaultProfileColStep_spec t (er.name ++ "_profile")
                      acc1 accA v0 hkn1 h3
                  obtain ⟨htiA, hinstA⟩ := hcreate hmiss1 ht
                  have hnd0 := List.nodup_cons.mp (hvs ▸ hnds)
                  obtain ⟨srB, hgetB, htiB, hinstB⟩ :=
                    defaultProfileFold_add t (er.name ++ "_profile") vrest
                      accA acc2 srA [v0] hknA hgetA htiA
                      (by rw [hinstA]; rfl)
                      (by
                        intro v' hv' hc
                        have : v' = v0 := by simpa using hc
                        subst this
                        exact hnd0.1 hv')
                      hnd0.2 h2
                  have hknB : keyNamed acc2 :=
                    (defaultProfileFold_frame t (er.name ++ "_profile")
                      vrest accA acc2 hknA h2).1
                  obtain ⟨hknF, hframeF⟩ :=
                    addDefaultProfilesFold_frame t l2 acc2 p' hknB h
                  have hcnF : getAssoc p'.resources (er.name ++ "_profile")
                      = getAssoc acc2.resources (er.name ++ "_profile") := by
                    refine hframeF _ ?_
                    intro pr hpr er2 her2
                    exact hsidecond l2
                      (fun pr' hpr' => by
                        rw [hsplit]
                        exact List.mem_append_right _
                          (List.mem_cons_of_mem _ hpr'))
                      hnm2 pr hpr er2 her2
                  refine ⟨srB, by rw [hcnF]; exact hgetB, htiB, ?_⟩
                  rw [hinstB, List.singleton_append, ← hvs]

/-- C3, corrected.  The positive half of the claim holds: with a configured
(non-empty) global time index `t`, for an element resource whose referenced
profile-column set is non-empty and whose companion `"<name>_profile"`
sequence resource does not yet exist, `_add_default_profiles` creates that
companion on demand, carrying the time index `t` and exactly one zero-filled
column per distinct referenced value (in sorted order).  The negative half
of the claim is false: when no time index is configured the phase is not
skipped; `_create_sequences` evaluates `list(None)` and raises `TypeError`,
so scenario creation does not complete (see `claim_C3_counterexample`). -/
theorem claim_C3 :
    (∀ (seqConfigs : List (String × List String)) (p : PackageState),
      createSequences none seqConfigs p
        = .error "TypeError: 'NoneType' object is not iterable")
    ∧ (∀ (t : List Nat) (p p' : PackageState) (nm : String)
        (er : ElementResource),
        t ≠ [] →
        keyNamed p →
        (keysOf p.resources).Nodup →
        getAssoc p.resources nm = some (.element er) →
        referencedSequenceValues er ≠ [] →
        ¬ (er.name ++ "_profile") ∈ resourceNames p →
        addDefaultProfiles t p = .ok p' →
        ∃ sr : SequenceResource,
          getAssoc p'.resources (er.name ++ "_profile")
            = some (.sequence sr)
          ∧ sr.timeindex = t
          ∧ sr.instances = (sortStrings (referencedSequenceValues er)).map
              (fun v => (v, zeros t.length))) :=
  ⟨fun _ _ => rfl,
   fun t p p' nm er ht hkn hnodup hget hvals hmiss h =>
     addDefaultProfiles_creates t p p' nm er ht hkn hnodup hget hvals
       hmiss h⟩

/-- Counterexample for the second half of C3 as stated: with no configured
time index, `_create_sequences` does not skip the phase and complete; it
raises `TypeError` (Python builds `list(None)`), even on an empty package
with no sequence configs at all. -/
theorem claim_C3_counterexample :
    createSequences none [] (⟨[]⟩ : PackageState)
      = .error "TypeError: 'NoneType' object is not iterable" := rfl

set_option maxRecDepth 2000000 in
/-- Witness for C3 at the concrete package `pC3`: the no-time-index run
fails with the `TypeError`, and with time index `[0, 1, 2]` the companion
`heat_demand_profile` is created with one zero column for each of the two
referenced values, sorted. -/
theorem claim_C3_witness :
    createSequences none [] (⟨[]⟩ : PackageState)
      = .error "TypeError: 'NoneType' object is not iterable"
    ∧ ∃ sr : SequenceResource,
        getAssoc pC3'.resources (erC3.name ++ "_profile")
          = some (.sequence sr)
        ∧ sr.timeindex = [0, 1, 2]
        ∧ sr.instances = (sortStrings (referencedSequenceValues erC3)).map
            (fun v => (v, zeros ([0, 1, 2] : List Nat).length)) :=
  ⟨claim_C3.1 [] ⟨[]⟩,
   claim_C3.2 [0, 1, 2] pC3 pC3' "heat_demand" erC3 (by decide)
     (by unfold keyNamed; decide)
     (by decide) rfl (by decide) (by decide) (by rfl)⟩

end OemofPipe
